import Mathlib

/-!
# wallet-cli: account store, transaction encoding and submission

A shallow embedding of the Go packages `accounts`, `client` and `repl` of
`libonomy/wallet-cli`, with the properties of their behaviour proved over it.

Conventions of the embedding

* A Go `string` or `[]byte` is a list of bytes, `List Nat`, every element below 256.
* A Go `uint64` is a `Nat` below `2 ^ 64`; the encoders reduce modulo 256 where Go
  truncates to a byte.
* A Go function returning `(T, error)` returns a pair `T × Option Error`; a pointer
  result is an `Option`.
* A Go function that can panic returns a `Run`.
* Libraries outside the repository (`xdr2`, `encoding/hex`, `encoding/json`, `ed25519`,
  `net/http`, `os`) are embedded by what they do on the values this program gives them.
-/

namespace WalletCli

/-! ## Go values -/

/-- A Go `string` or `[]byte`: its bytes in order. -/
abbrev GoString := List Nat

/-- The bytes of an ASCII literal of the source. -/
def lit (s : String) : GoString := s.toList.map Char.toNat

/-- Every element is a byte. -/
def IsBytes (b : List Nat) : Prop := ∀ x ∈ b, x < 256

instance (b : List Nat) : Decidable (IsBytes b) := by
  unfold IsBytes; infer_instance

/-- Go error values that occur in the embedded code. -/
inductive Error where
  /-- The error made by `fmt.Errorf` or `errors.New` with this text. -/
  | errorf (msg : GoString)
  /-- The error of `xdr.Marshal` on a value it cannot encode. -/
  | xdrUnsupported
  /-- The error `hex.InvalidByteError` of `encoding/hex`. -/
  | hexInvalidByte (b : Nat)
  /-- The error `hex.ErrLength` of `encoding/hex`. -/
  | hexLength
  /-- The error of `os.Stat` on a path that does not exist. -/
  | notExist
  /-- Any other error of the operating system or of the network, by its number. -/
  | sys (code : Nat)
  /-- The error of `encoding/json` on text that is not JSON. -/
  | jsonSyntax
  /-- The error `json.UnmarshalTypeError`: a JSON value of the wrong kind for its target. -/
  | jsonType
  /-- The error of `ed25519.GenerateKey` when the random source fails. -/
  | rand
  /-- The error made by `fmt.Errorf` with a text followed by another error (`%v`). -/
  | wrapped (msg : GoString) (cause : Error)
  /-- The error made by `fmt.Errorf` with a text followed by a map printed with `%v`;
  the printed map is left out. -/
  | withValue (msg : GoString)
  /-- The error of `strconv.ParseUint` on text that is not a number (`ErrSyntax`). -/
  | parseSyntax
  /-- The error of `strconv.ParseUint` on a number that is out of range (`ErrRange`). -/
  | parseRange
  deriving DecidableEq, Repr

/-- How a Go call ends: it returns, or it panics. -/
inductive Run (α : Type) where
  | returns (a : α)
  | panics
  deriving DecidableEq, Repr

/-! ## XDR encoding (`github.com/davecgh/go-xdr/xdr2`) -/

/-- The Go values handed to `xdr.Marshal`, by the shape the encoder sees through
reflection. -/
inductive XdrValue where
  /-- A `uint64`. -/
  | uhyper (v : Nat)
  /-- A byte array `[n]byte`. -/
  | fixedOpaque (b : List Nat)
  /-- A struct: its exported fields in declaration order. -/
  | struct (fields : List XdrValue)
  /-- A value of a kind the encoder rejects (a nil interface, a channel, a function). -/
  | unsupported

/-- The function `Encoder.EncodeUhyper`: eight bytes, most significant first. -/
def EncodeUhyper (v : Nat) : List Nat :=
  [v / 2 ^ 56 % 256, v / 2 ^ 48 % 256, v / 2 ^ 40 % 256, v / 2 ^ 32 % 256,
   v / 2 ^ 24 % 256, v / 2 ^ 16 % 256, v / 2 ^ 8 % 256, v % 256]

/-- The function `Encoder.EncodeFixedOpaque`: the bytes, then zero bytes up to a
multiple of four. -/
def EncodeFixedOpaque (b : List Nat) : List Nat :=
  b ++ List.replicate ((4 - b.length % 4) % 4) 0

mutual
/-- The function `Encoder.encode`. -/
def xdrEncode : XdrValue → Except Error (List Nat)
  | .uhyper v => .ok (EncodeUhyper v)
  | .fixedOpaque b => .ok (EncodeFixedOpaque b)
  | .struct fields => xdrEncodeStruct fields
  | .unsupported => .error .xdrUnsupported
/-- The function `Encoder.encodeStruct`: the fields one after the other, stopping at the
first that fails. -/
def xdrEncodeStruct : List XdrValue → Except Error (List Nat)
  | [] => .ok []
  | f :: rest =>
    match xdrEncode f with
    | .error e => .error e
    | .ok a =>
      match xdrEncodeStruct rest with
      | .error e => .error e
      | .ok b => .ok (a ++ b)
end

/-! ## Transactions (`client/transaction.go`) -/

/-- The struct `InnerSerializableSignedTransaction`. `Recipient` is an `address.Address`,
a `[20]byte`. -/
structure InnerSerializableSignedTransaction where
  AccountNonce : Nat
  Recipient : List Nat
  GasLimit : Nat
  Price : Nat
  Amount : Nat
  deriving DecidableEq, Repr

/-- The struct `SerializableSignedTransaction`: the embedded inner struct, then
`Signature [64]byte`. -/
structure SerializableSignedTransaction where
  Inner : InnerSerializableSignedTransaction
  Signature : List Nat
  deriving DecidableEq, Repr

/-- What reflection shows of an `InnerSerializableSignedTransaction`. -/
def InnerSerializableSignedTransaction.toXdr (t : InnerSerializableSignedTransaction) :
    XdrValue :=
  .struct [.uhyper t.AccountNonce, .fixedOpaque t.Recipient, .uhyper t.GasLimit,
    .uhyper t.Price, .uhyper t.Amount]

/-- What reflection shows of a `SerializableSignedTransaction`. -/
def SerializableSignedTransaction.toXdr (t : SerializableSignedTransaction) : XdrValue :=
  .struct [t.Inner.toXdr, .fixedOpaque t.Signature]

/-- The function `InterfaceToBytes` of `client/backend.go`: `(nil, err)` when
`xdr.Marshal` fails, the bytes written otherwise. -/
def InterfaceToBytes (i : XdrValue) : Option (List Nat) × Option Error :=
  match xdrEncode i with
  | .error err => (none, some err)
  | .ok w => (some w, none)

/-- The bytes that `xdr.Marshal` writes for an unsigned transaction: the fields in
declaration order. -/
def innerBytes (t : InnerSerializableSignedTransaction) : List Nat :=
  EncodeUhyper t.AccountNonce ++ (EncodeFixedOpaque t.Recipient ++
    (EncodeUhyper t.GasLimit ++ (EncodeUhyper t.Price ++ EncodeUhyper t.Amount)))

/-- The number a byte sequence denotes when read most significant byte first. -/
def beValue (b : List Nat) : Nat := b.foldl (fun acc x => 256 * acc + x) 0

/-- The byte sequence `b` is the 8-byte big-endian form of `v`. -/
def IsBigEndian8 (b : List Nat) (v : Nat) : Prop :=
  b.length = 8 ∧ IsBytes b ∧ beValue b = v

/-- An unsigned transaction as Go can hold it: four `uint64` and a `[20]byte`. -/
def InnerSerializableSignedTransaction.WellFormed
    (t : InnerSerializableSignedTransaction) : Prop :=
  t.AccountNonce < 2 ^ 64 ∧ t.Recipient.length = 20 ∧ IsBytes t.Recipient ∧
  t.GasLimit < 2 ^ 64 ∧ t.Price < 2 ^ 64 ∧ t.Amount < 2 ^ 64

instance (t : InnerSerializableSignedTransaction) : Decidable t.WellFormed := by
  unfold InnerSerializableSignedTransaction.WellFormed; infer_instance

/-! ## Hexadecimal text (`encoding/hex`) -/

/-- The table `hextable` of `encoding/hex`, indexed by a value below 16. -/
def hexDigit (n : Nat) : Nat := (lit "0123456789abcdef").getD n 0

/-- The function `hex.EncodeToString`: two digits for each byte, high half first. -/
def EncodeToString : List Nat → GoString
  | [] => []
  | v :: rest => hexDigit (v / 16) :: hexDigit (v % 16) :: EncodeToString rest

/-- The function `fromHexChar` of `encoding/hex`: the value of a digit in `0-9`, `a-f`
or `A-F`. -/
def fromHexChar (c : Nat) : Option Nat :=
  if 48 ≤ c ∧ c ≤ 57 then some (c - 48)
  else if 97 ≤ c ∧ c ≤ 102 then some (c - 97 + 10)
  else if 65 ≤ c ∧ c ≤ 70 then some (c - 65 + 10)
  else none

/-- The function `hex.DecodeString`: the bytes decoded so far and the error, if any. A
bad digit is reported before an odd length. -/
def DecodeString : GoString → List Nat × Option Error
  | [] => ([], none)
  | [c] =>
    match fromHexChar c with
    | none => ([], some (.hexInvalidByte c))
    | some _ => ([], some .hexLength)
  | p :: q :: rest =>
    match fromHexChar p with
    | none => ([], some (.hexInvalidByte p))
    | some a =>
      match fromHexChar q with
      | none => ([], some (.hexInvalidByte q))
      | some b =>
        let r := DecodeString rest
        ((a * 16 + b) :: r.1, r.2)

/-- A character is a hexadecimal digit, of either case. -/
def IsHexDigit (c : Nat) : Prop :=
  (48 ≤ c ∧ c ≤ 57) ∨ (97 ≤ c ∧ c ≤ 102) ∨ (65 ≤ c ∧ c ≤ 70)

instance (c : Nat) : Decidable (IsHexDigit c) := by
  unfold IsHexDigit; infer_instance

/-- A string is valid hex: an even number of hexadecimal digits. -/
def IsHexString (s : GoString) : Prop :=
  s.length % 2 = 0 ∧ ∀ c ∈ s, IsHexDigit c

instance (s : GoString) : Decidable (IsHexString s) := by
  unfold IsHexString; infer_instance

/-! ## Accounts (`accounts/account.go`, `accounts/store.go`) -/

/-- The struct `Account`. -/
structure Account where
  Name : GoString
  PrivKey : List Nat
  PubKey : List Nat
  deriving DecidableEq, Repr

/-- The method `Account.Address`. The function `address.BytesToAddress` belongs to a
package of the repository that is not among the sources, so it is a parameter. -/
def Account.Address (BytesToAddress : List Nat → List Nat) (a : Account) : List Nat :=
  BytesToAddress a.PubKey

/-- The struct `AccountKeys`. -/
structure AccountKeys where
  PubKey : GoString
  PrivKey : GoString
  deriving DecidableEq, Repr

/-- The value at key `k` in the entries of a Go map, if any. -/
def lookupEntry {β : Type} (k : GoString) : List (GoString × β) → Option β
  | [] => none
  | (k', v) :: rest => if k' = k then some v else lookupEntry k rest

/-- The entries of a Go map after `m[k] = v`: the value at `k` is replaced where `k` is
present, and a new entry is added where it is not. -/
def assignEntry {β : Type} (k : GoString) (v : β) : List (GoString × β) → List (GoString × β)
  | [] => [(k, v)]
  | (k', v') :: rest =>
    if k' = k then (k, v) :: rest else (k', v') :: assignEntry k v rest

/-- The type `Store`, a `map[string]AccountKeys`: the nil map, or a table of entries
with one entry for each key. -/
inductive Store where
  | nil
  | table (entries : List (GoString × AccountKeys))
  deriving DecidableEq, Repr

/-- The entries of a store; the nil map has none. -/
def Store.entries : Store → List (GoString × AccountKeys)
  | .nil => []
  | .table e => e

/-- The keys of a store. -/
def Store.keys (s : Store) : List GoString := s.entries.map Prod.fst

/-- A store as Go can hold it: no key occurs twice. -/
def Store.WellFormed (s : Store) : Prop := s.keys.Nodup

instance (s : Store) : Decidable s.WellFormed := by
  unfold Store.WellFormed; infer_instance

/-- The index expression `s[name]` with its `ok` flag. -/
def Store.index (s : Store) (name : GoString) : Option AccountKeys :=
  lookupEntry name s.entries

/-- The value of `len(s)`. -/
def Store.len (s : Store) : Nat := s.entries.length

/-- The method `Store.GetAccount`, paired with the store after the call. -/
def Store.GetAccount (s : Store) (name : GoString) : (Option Account × Option Error) × Store :=
  match s.index name with
  | some acc =>
    match DecodeString acc.PrivKey with
    | (_, some err) => ((none, some err), s)
    | (priv, none) =>
      match DecodeString acc.PubKey with
      | (_, some err) => ((none, some err), s)
      | (pub, none) => ((some ⟨name, priv, pub⟩, none), s)
  | none => ((none, some (.errorf (lit "account not found"))), s)

/-- The method `Store.ListAccounts`. Go visits the keys of a map in no fixed order; the
order here is that of the entries. -/
def Store.ListAccounts (s : Store) : List GoString :=
  s.entries.foldl (fun lst e => lst ++ [e.1]) []

/-- The method `Store.CreateAccount`, paired with the store after the call.
`generated` is what `ed25519.GenerateKey(rand.Reader)` returns in this call: the public
key, the private key and the error. Assigning into the nil map panics. -/
def Store.CreateAccount (s : Store) (generated : List Nat × List Nat × Option Error)
    (alias_ : GoString) : Run (Option Account × Store) :=
  match generated with
  | (_, _, some _) => .returns (none, s)
  | (sPub, key, none) =>
    let acc : Account := { Name := alias_, PubKey := sPub, PrivKey := key }
    match s with
    | .nil => .panics
    | .table e =>
      .returns (some acc,
        .table (assignEntry alias_
          { PubKey := EncodeToString sPub, PrivKey := EncodeToString key } e))

/-! ## JSON (`encoding/json`)

The library is embedded on JSON values: a text is taken by the value it parses to, so
the escapes of the text are not part of the embedding. A JSON string is held as the
UTF-8 bytes of its characters. -/

/-- A JSON value. -/
inductive JValue where
  | null
  | bool (b : Bool)
  | number (text : GoString)
  | string (s : GoString)
  | array (items : List JValue)
  | object (members : List (GoString × JValue))

/-- The content of a file or of a response body, as `encoding/json` reads it: the JSON
value it starts with, or text that is not JSON. -/
inductive Content where
  | json (v : JValue)
  | malformed

/-- The table `first` of `unicode/utf8` for a lead byte of a multi-byte sequence: the
length of the sequence and the range accepted for its second byte. Nothing for a byte
that starts no sequence. -/
def utf8First (b : Nat) : Option (Nat × Nat × Nat) :=
  if 0xC2 ≤ b ∧ b ≤ 0xDF then some (2, 0x80, 0xBF)
  else if b = 0xE0 then some (3, 0xA0, 0xBF)
  else if 0xE1 ≤ b ∧ b ≤ 0xEC then some (3, 0x80, 0xBF)
  else if b = 0xED then some (3, 0x80, 0x9F)
  else if 0xEE ≤ b ∧ b ≤ 0xEF then some (3, 0x80, 0xBF)
  else if b = 0xF0 then some (4, 0x90, 0xBF)
  else if 0xF1 ≤ b ∧ b ≤ 0xF3 then some (4, 0x80, 0xBF)
  else if b = 0xF4 then some (4, 0x80, 0x8F)
  else none

/-- The width that `utf8.DecodeRuneInString` reports for the rune at the head of a
non-empty string, or nothing where it reports `RuneError` with width 1. -/
def runeWidth : GoString → Option Nat
  | [] => none
  | s0 :: rest =>
    if s0 < 0x80 then some 1
    else
      match utf8First s0 with
      | none => none
      | some (sz, lo, hi) =>
        match rest with
        | [] => none
        | s1 :: r1 =>
          if s1 < lo ∨ hi < s1 then none
          else if sz ≤ 2 then some 2
          else
            match r1 with
            | [] => none
            | s2 :: r2 =>
              if s2 < 0x80 ∨ 0xBF < s2 then none
              else if sz ≤ 3 then some 3
              else
                match r2 with
                | [] => none
                | s3 :: _ => if s3 < 0x80 ∨ 0xBF < s3 then none else some 4

/-- The string value that the encoder writes for a Go string: the runes of the string,
with every byte that belongs to no valid UTF-8 sequence replaced by U+FFFD (the bytes
`EF BF BD`). `pending` counts the bytes of the current rune still to be copied. -/
def coerceFrom : Nat → GoString → GoString
  | _, [] => []
  | pending + 1, b :: rest => b :: coerceFrom pending rest
  | 0, b :: rest =>
    match runeWidth (b :: rest) with
    | none => 0xEF :: 0xBF :: 0xBD :: coerceFrom 0 rest
    | some n => b :: coerceFrom (n - 1) rest

/-- The JSON string of a Go string. -/
def jsonString (s : GoString) : GoString := coerceFrom 0 s

/-- A byte sequence is well-formed UTF-8 (Unicode, table 3-7). -/
inductive ValidUTF8 : GoString → Prop where
  | nil : ValidUTF8 []
  | one (b : Nat) (rest : GoString) : b < 0x80 → ValidUTF8 rest → ValidUTF8 (b :: rest)
  | two (b0 b1 : Nat) (rest : GoString) :
      0xC2 ≤ b0 → b0 ≤ 0xDF → 0x80 ≤ b1 → b1 ≤ 0xBF → ValidUTF8 rest →
      ValidUTF8 (b0 :: b1 :: rest)
  | three (b0 b1 b2 : Nat) (rest : GoString) :
      ((b0 = 0xE0 ∧ 0xA0 ≤ b1 ∧ b1 ≤ 0xBF) ∨
       (0xE1 ≤ b0 ∧ b0 ≤ 0xEC ∧ 0x80 ≤ b1 ∧ b1 ≤ 0xBF) ∨
       (b0 = 0xED ∧ 0x80 ≤ b1 ∧ b1 ≤ 0x9F) ∨
       (0xEE ≤ b0 ∧ b0 ≤ 0xEF ∧ 0x80 ≤ b1 ∧ b1 ≤ 0xBF)) →
      0x80 ≤ b2 → b2 ≤ 0xBF → ValidUTF8 rest → ValidUTF8 (b0 :: b1 :: b2 :: rest)
  | four (b0 b1 b2 b3 : Nat) (rest : GoString) :
      ((b0 = 0xF0 ∧ 0x90 ≤ b1 ∧ b1 ≤ 0xBF) ∨
       (0xF1 ≤ b0 ∧ b0 ≤ 0xF3 ∧ 0x80 ≤ b1 ∧ b1 ≤ 0xBF) ∨
       (b0 = 0xF4 ∧ 0x80 ≤ b1 ∧ b1 ≤ 0x8F)) →
      0x80 ≤ b2 → b2 ≤ 0xBF → 0x80 ≤ b3 → b3 ≤ 0xBF → ValidUTF8 rest →
      ValidUTF8 (b0 :: b1 :: b2 :: b3 :: rest)

/-- The order `<` of Go on strings: byte by byte, a proper start of a string before the
string. -/
def strLt : GoString → GoString → Bool
  | [], [] => false
  | [], _ :: _ => true
  | _ :: _, [] => false
  | a :: s, b :: t => if a < b then true else if b < a then false else strLt s t

/-- One step of the sort of the map keys: an entry put in its place among sorted ones. -/
def insertByKey {β : Type} (e : GoString × β) : List (GoString × β) → List (GoString × β)
  | [] => [e]
  | x :: rest => if strLt x.1 e.1 then x :: insertByKey e rest else e :: x :: rest

/-- The entries of a map in increasing order of their keys, as the encoder writes them. -/
def sortByKey {β : Type} : List (GoString × β) → List (GoString × β)
  | [] => []
  | e :: rest => insertByKey e (sortByKey rest)

/-- The JSON object written for an `AccountKeys`: the fields in declaration order under
the names of their tags. -/
def AccountKeys.toJSON (k : AccountKeys) : JValue :=
  .object [(lit "pubkey", .string (jsonString k.PubKey)),
    (lit "privkey", .string (jsonString k.PrivKey))]

/-- The JSON value written for a `*Store`: `null` for the nil map, otherwise an object
with one member for each entry, in the order of the keys. -/
def Store.toJSON : Store → JValue
  | .nil => .null
  | .table e => .object ((sortByKey e).map fun kv => (jsonString kv.1, kv.2.toJSON))

/-- The folding of names that the decoder applies to match an object key with a struct
field whatever the case: a letter `a`-`z` becomes its capital, the Kelvin sign (U+212A)
becomes `K` and the long s (U+017F) becomes `S`, the only letters outside ASCII that fold
to an ASCII letter. -/
def foldName : GoString → GoString
  | [] => []
  | 0xE2 :: 0x84 :: 0xAA :: rest => 75 :: foldName rest
  | 0xC5 :: 0xBF :: rest => 83 :: foldName rest
  | b :: rest => (if 97 ≤ b ∧ b ≤ 122 then b - 32 else b) :: foldName rest

/-- The field of `AccountKeys` that an object key selects: the field with exactly this
name, else the field with this name up to case. `true` stands for `PubKey`, `false` for
`PrivKey`. -/
def matchField (key : GoString) : Option Bool :=
  if key = lit "pubkey" then some true
  else if key = lit "privkey" then some false
  else if foldName key = foldName (lit "pubkey") then some true
  else if foldName key = foldName (lit "privkey") then some false
  else none

/-- The first error is the one the decoder keeps. -/
def saveError (saved new : Option Error) : Option Error :=
  match saved with
  | some e => some e
  | none => new

/-- Decoding of the members of a JSON object into an `AccountKeys`: a string sets the
field its key selects, `null` leaves it, a value of another kind is a type error, and a
member that selects no field is skipped. -/
def decodeFields : List (GoString × JValue) → AccountKeys × Option Error →
    AccountKeys × Option Error
  | [], acc => acc
  | (key, v) :: rest, (k, err) =>
    match matchField key with
    | none => decodeFields rest (k, err)
    | some isPub =>
      match v with
      | .string s =>
        decodeFields rest
          (if isPub then { k with PubKey := s } else { k with PrivKey := s }, err)
      | .null => decodeFields rest (k, err)
      | _ => decodeFields rest (k, saveError err (some .jsonType))

/-- Decoding of a JSON value into a fresh `AccountKeys`. -/
def decodeAccountKeys (v : JValue) : AccountKeys × Option Error :=
  match v with
  | .object members => decodeFields members (⟨[], []⟩, none)
  | .null => (⟨[], []⟩, none)
  | _ => (⟨[], []⟩, some .jsonType)

/-- Decoding of the members of a JSON object into the entries of a map: each member is
decoded into a fresh element and assigned at its key, so that a later member replaces
an earlier one with the same key. -/
def decodeMembers : List (GoString × JValue) → List (GoString × AccountKeys) × Option Error →
    List (GoString × AccountKeys) × Option Error
  | [], acc => acc
  | (key, v) :: rest, (e, err) =>
    let r := decodeAccountKeys v
    decodeMembers rest (assignEntry key r.1 e, saveError err r.2)

/-- The call `dec.Decode(cfg)` on a `cfg` that points to an empty `Store`: an object
fills the map, `null` makes it the nil map, a value of another kind is a type error, and
text that is not JSON is a syntax error. -/
def decodeStore (c : Content) : Store × Option Error :=
  match c with
  | .malformed => (.table [], some .jsonSyntax)
  | .json (.object members) =>
    let r := decodeMembers members ([], none)
    (.table r.1, r.2)
  | .json .null => (.nil, none)
  | .json _ => (.table [], some .jsonType)

/-- The text that a record of the key file gives for a field: the string of the last
member of the record that selects the field and holds a string, if there is one. -/
def lastText (isPub : Bool) : List (GoString × JValue) → Option GoString
  | [] => none
  | (k, v) :: rest =>
    match lastText isPub rest with
    | some t => some t
    | none =>
      match v with
      | .string s => if matchField k = some isPub then some s else none
      | _ => none

/-- The keys that a record of the key file gives as written: for each field the text
the record gives, and the empty string when it gives none. -/
def recordKeys : JValue → AccountKeys
  | .object members => ⟨(lastText true members).getD [], (lastText false members).getD []⟩
  | _ => ⟨[], []⟩

/-- A record of the key file has the JSON kinds of an `AccountKeys`: it is `null`, or
an object in which every member that selects the pubkey or the privkey field, by its
exact name or up to the case of letters, holds a string or `null`. -/
def TypedRecord (v : JValue) : Prop :=
  v = .null ∨
  ∃ members, v = .object members ∧
    ∀ m ∈ members, matchField m.1 ≠ none → (m.2 = .null ∨ ∃ t, m.2 = .string t)

/-! ## Files (`os`) -/

/-- What a path holds. -/
inductive FileState where
  /-- Nothing: `os.Stat` reports that the file does not exist. -/
  | absent
  /-- Something that `os.Open` cannot open, with the error of `os.Open`. -/
  | unreadable (err : Error)
  /-- A file that can be read. -/
  | file (content : Content)

/-- The file system: what each path holds, and the error of `os.Create` and of a write
for the paths where they fail. -/
structure FS where
  state : GoString → FileState
  createErr : GoString → Option Error
  writeErr : GoString → Option Error

/-- The file system after the content of a path is set. -/
def FS.put (fs : FS) (path : GoString) (c : Content) : FS :=
  { fs with state := fun p => if p = path then .file c else fs.state p }

/-- The function `StoreAccounts`, paired with the file system after the call.
`os.Create` empties the file; a failed write leaves it without a JSON value. -/
def StoreAccounts (fs : FS) (path : GoString) (store : Store) : Option Error × FS :=
  match fs.createErr path with
  | some err => (some err, fs)
  | none =>
    match fs.writeErr path with
    | some err => (some err, fs.put path .malformed)
    | none => (none, fs.put path (.json store.toJSON))

/-- The function `LoadAccounts`. -/
def LoadAccounts (fs : FS) (path : GoString) : Option Store × Option Error :=
  match fs.state path with
  | .absent => (none, some .notExist)
  | .unreadable err => (none, some (.wrapped (lit "error opening file: ") err))
  | .file content =>
    match decodeStore content with
    | (_, some err) => (none, some err)
    | (cfg, none) => (some cfg, none)

/-! ## The HTTP client (`client/json_http_client.go`) -/

/-- The function `strconv.Itoa` on a number that is not negative: its decimal digits. -/
def Itoa (n : Nat) : GoString := (Nat.toDigits 10 n).map Char.toNat

/-- A request as `HTTPRequester.Get` makes it: a POST of a body to a URL. -/
structure Request where
  url : GoString
  body : GoString
  deriving DecidableEq, Repr

/-- What becomes of a request. -/
inductive Exchange where
  /-- The call `http.NewRequest` fails: nothing is sent. -/
  | rejected (err : Error)
  /-- The call `hr.Do` fails. -/
  | failed (err : Error)
  /-- The node answers with a status code and a body. -/
  | response (status : Nat) (body : Content)

/-- The struct `HTTPRequester`. The `*http.Client` is held as what it does with each
request. -/
structure HTTPRequester where
  Client : Request → Exchange
  url : GoString

/-- The value at a key of a decoded JSON object, a `map[string]interface{}`: that of
the last member with this key. -/
def mapIndex (m : List (GoString × JValue)) (k : GoString) : Option JValue :=
  lookupEntry k m.reverse

/-- The method `HTTPRequester.Get`, paired with the requests it sent. The type
assertion on a body that is JSON but no object panics. A nil map is returned with an
error. -/
def HTTPRequester.Get (hr : HTTPRequester) (api data : GoString) ( _logIO : Bool) :
    Run (Option (List (GoString × JValue)) × Option Error) × List Request :=
  let url := hr.url ++ api
  match hr.Client ⟨url, data⟩ with
  | .rejected err => (.returns (none, some err), [])
  | .failed err => (.returns (none, some err), [⟨url, data⟩])
  | .response status resBody =>
    if status ≠ 200 then
      (.returns (none, some (.errorf
        (lit "`" ++ api ++ lit "` response status code: " ++ Itoa status))), [⟨url, data⟩])
    else
      match resBody with
      | .malformed => (.returns (none, some .jsonSyntax), [⟨url, data⟩])
      | .json (.object f) => (.returns (some f, none), [⟨url, data⟩])
      | .json _ => (.panics, [⟨url, data⟩])

/-- The function `printBuffer`. -/
def printBuffer (b : List Nat) : GoString :=
  let st := b.foldl (fun st byt => st ++ (Itoa byt ++ lit ",")) (lit "[")
  st.take (st.length - 1) ++ lit "]"

/-- The method `HTTPRequester.Send`, paired with the requests it sent. The type
assertion on an `id` that is no string panics. -/
def HTTPRequester.Send (m : HTTPRequester) (b : List Nat) :
    Run (GoString × Option Error) × List Request :=
  let str := lit "\x7b \"tx\": " ++ printBuffer b ++ lit "\x7d"
  match m.Get (lit "/submittransaction") str true with
  | (.panics, sent) => (.panics, sent)
  | (.returns (_, some err), sent) => (.returns ([], some err), sent)
  | (.returns (res, none), sent) =>
    match mapIndex (res.getD []) (lit "id") with
    | none => (.returns ([], some (.errorf (lit "failed to submit tx"))), sent)
    | some (.string val) => (.returns (val, none), sent)
    | some _ => (.panics, sent)

/-! ## The wallet (`client/backend.go`) -/

/-- The struct `WalletBE`. -/
structure WalletBE where
  HTTPRequester : HTTPRequester
  Store : Store
  accountsFilePath : GoString
  currentAccount : Option Account

/-- The method `WalletBE.CurrentAccount`. -/
def WalletBE.CurrentAccount (w : WalletBE) : Option Account := w.currentAccount

/-- The method `WalletBE.SetCurrentAccount`. -/
def WalletBE.SetCurrentAccount (w : WalletBE) (a : Option Account) : WalletBE :=
  { w with currentAccount := a }

/-- The builtin `copy` into an array: the bytes of `src` over the start of `dst`, as
many as fit. -/
def copyInto (dst src : List Nat) : List Nat :=
  src.take dst.length ++ dst.drop src.length

/-- The method `WalletBE.Transfer`, paired with the requests it sent. `Sign2` is the
signer `ed25519.Sign2`, which panics on a key that is not 64 bytes long. -/
def WalletBE.Transfer (w : WalletBE) (Sign2 : List Nat → List Nat → Run (List Nat))
    (recipient : List Nat) (nonce amount gasPrice gasLimit : Nat) (key : List Nat) :
    Run (GoString × Option Error) × List Request :=
  let tx : SerializableSignedTransaction :=
    { Inner := { AccountNonce := nonce, Amount := amount, Recipient := recipient,
                 GasLimit := gasLimit, Price := gasPrice },
      Signature := List.replicate 64 0 }
  let buf := (InterfaceToBytes tx.Inner.toXdr).1
  match Sign2 key (buf.getD []) with
  | .panics => (.panics, [])
  | .returns sig =>
    let tx := { tx with Signature := copyInto tx.Signature sig }
    match InterfaceToBytes tx.toXdr with
    | (_, some err) => (.returns ([], some err), [])
    | (b, none) => w.HTTPRequester.Send (b.getD [])

/-! ## Values for the examples -/

/-- A node that accepts every request and answers with the id `7`. -/
def acceptingNode : HTTPRequester :=
  { Client := fun _ => .response 200 (.json (.object [(lit "id", .string (lit "7"))])),
    url := lit "http://localhost:9090/v1" }

/-- A node whose connection fails. -/
def unreachableNode : HTTPRequester :=
  { Client := fun _ => .failed (.sys 111), url := lit "http://localhost:9090/v1" }

/-- A signer that returns the same 64 bytes for every key and message. -/
def constSigner (_key _message : List Nat) : Run (List Nat) := .returns (List.replicate 64 7)

/-- A wallet with an empty store and no current account. -/
def freshWallet (hr : HTTPRequester) : WalletBE :=
  { HTTPRequester := hr, Store := .table [], accountsFilePath := lit "accounts.json",
    currentAccount := none }

/-- A capital hexadecimal letter made small; any other character as it is. -/
def lowerHex (c : Nat) : Nat := if 65 ≤ c ∧ c ≤ 70 then c + 32 else c

/-- Every alias and every key string of the store is well-formed UTF-8. -/
def Store.ValidText (s : Store) : Prop :=
  ∀ e ∈ s.entries, ValidUTF8 e.1 ∧ ValidUTF8 e.2.PubKey ∧ ValidUTF8 e.2.PrivKey

/-- A file system with no file, where every file can be created and written. -/
def emptyFS : FS :=
  { state := fun _ => .absent, createErr := fun _ => none, writeErr := fun _ => none }

/-- The JSON object of a key file record with these two strings. -/
def recordJSON (k : AccountKeys) : JValue :=
  .object [(lit "pubkey", .string k.PubKey), (lit "privkey", .string k.PrivKey)]

/-! ## Start of the wallet (`client/backend.go`) -/

/-- The constant `accountsFileName`. -/
def accountsFileName : GoString := lit "accounts.json"

/-- The function `NewHTTPRequester`. The new `http.Client` is held as what the network
does with its requests. -/
def NewHTTPRequester (net : Request → Exchange) (url : GoString) : HTTPRequester :=
  { Client := net, url := url }

/-- The function `NewWalletBE`. `Join` is `path.Join`. Whatever the error of
`LoadAccounts`, it is logged and an empty store put in place of the loaded one; taking
the store out of a nil pointer would panic. -/
def NewWalletBE (Join : GoString → GoString → GoString) (net : Request → Exchange) (fs : FS)
    (serverHostPort datadir : GoString) : Run (Option WalletBE × Option Error) :=
  let accountsFilePath := Join datadir accountsFileName
  let acc : Option Store :=
    match LoadAccounts fs accountsFilePath with
    | (_, some _) => some (.table [])
    | (acc, none) => acc
  let url := lit "http://" ++ serverHostPort ++ lit "/v1"
  match acc with
  | none => .panics
  | some store =>
    .returns (some { HTTPRequester := NewHTTPRequester net url, Store := store,
                     accountsFilePath := accountsFilePath, currentAccount := none }, none)

/-- The method `WalletBE.StoreAccounts`, paired with the file system after the call. -/
def WalletBE.StoreAccounts (w : WalletBE) (fs : FS) : Option Error × FS :=
  WalletCli.StoreAccounts fs w.accountsFilePath w.Store

/-! ## Addresses and the other requests -/

/-- Modelled from the spec: the method `Address.Bytes` of the package `wallet/address`,
which is not among the sources. An address is a fixed sequence of 20 bytes, and these
are its bytes. -/
def AddressBytes (addr : List Nat) : List Nat := addr

/-- The function `StringAddress` of `accounts/account.go`. -/
def StringAddress (addr : List Nat) : GoString :=
  lit "0x" ++ EncodeToString (AddressBytes addr)

/-- The struct `AccountInfo` of `accounts/account.go`. -/
structure AccountInfo where
  Nonce : GoString
  Balance : GoString
  deriving DecidableEq, Repr

/-- The method `HTTPRequester.AccountInfo`, paired with the requests it sent. The type
assertion on a `value` that is no string panics. -/
def HTTPRequester.AccountInfo (m : HTTPRequester) (address : GoString) :
    Run (Option AccountInfo × Option Error) × List Request :=
  let str := lit "\x7b \"address\": \"0x" ++ address ++ lit "\"\x7d"
  match m.Get (lit "/nonce") str true with
  | (.panics, sent) => (.panics, sent)
  | (.returns (_, some err), sent) => (.returns (none, some err), sent)
  | (.returns (output, none), sent) =>
    match mapIndex (output.getD []) (lit "value") with
    | none => (.returns (none, some (.withValue (lit "cant get nonce "))), sent)
    | some (.string nonce) =>
      match m.Get (lit "/balance") str true with
      | (.panics, sent2) => (.panics, sent ++ sent2)
      | (.returns (_, some err), sent2) => (.returns (none, some err), sent ++ sent2)
      | (.returns (output2, none), sent2) =>
        match mapIndex (output2.getD []) (lit "value") with
        | none =>
          (.returns (none, some (.withValue (lit "cant get balance "))), sent ++ sent2)
        | some (.string balance) =>
          (.returns (some { Nonce := nonce, Balance := balance }, none), sent ++ sent2)
        | some _ => (.panics, sent ++ sent2)
    | some _ => (.panics, sent)

/-- The strings of a JSON array, or nothing when an element is no string. -/
def stringsOf : List JValue → Option (List GoString)
  | [] => some []
  | .string s :: rest =>
    match stringsOf rest with
    | some l => some (s :: l)
    | none => none
  | _ :: _ => none

/-- The method `HTTPRequester.ListTxs`, paired with the requests it sent. The type
assertions on a `txs` that is no array, or on an element that is no string, panic. -/
def HTTPRequester.ListTxs (m : HTTPRequester) (address : GoString) :
    Run (Option (List GoString) × Option Error) × List Request :=
  let str := lit "\x7b \"account\": \x7b \"address\": \"" ++ address ++ lit "\"\x7d \x7d"
  match m.Get (lit "/accounttxs") str true with
  | (.panics, sent) => (.panics, sent)
  | (.returns (_, some err), sent) => (.returns (none, some err), sent)
  | (.returns (res, none), sent) =>
    match mapIndex (res.getD []) (lit "txs") with
    | none => (.returns (some [], none), sent)
    | some (.array items) =>
      match stringsOf items with
      | some txs => (.returns (some txs, none), sent)
      | none => (.panics, sent)
    | some _ => (.panics, sent)

/-- The method `HTTPRequester.SetCoinbase`, paired with the requests it sent. -/
def HTTPRequester.SetCoinbase (m : HTTPRequester) (coinbase : GoString) :
    Run (Option Error) × List Request :=
  let str := lit "\x7b \"address\": \"" ++ coinbase ++ lit "\"\x7d"
  match m.Get (lit "/setawardsaddr") str true with
  | (.panics, sent) => (.panics, sent)
  | (.returns (_, some err), sent) => (.returns (some err), sent)
  | (.returns (_, none), sent) => (.returns none, sent)

/-! ## Numbers and blanks (`strconv`, `strings`) -/

/-- The loop of `strconv.ParseUint` in base 10 for 64 bits: `n` is the number read so
far. A character that is no digit is a syntax error with the value 0; a number that does
not fit is a range error with the greatest value. -/
def ParseUintFrom : List Nat → Nat → Nat × Option Error
  | [], n => (n, none)
  | c :: rest, n =>
    if 48 ≤ c ∧ c ≤ 57 then
      if (2 ^ 64 - 1) / 10 + 1 ≤ n then (2 ^ 64 - 1, some .parseRange)
      else
        let n1 := (n * 10 + (c - 48)) % 2 ^ 64
        if n1 < n * 10 then (2 ^ 64 - 1, some .parseRange) else ParseUintFrom rest n1
    else (0, some .parseSyntax)

/-- The call `strconv.ParseUint(s, 10, 64)`. -/
def ParseUint (s : GoString) : Nat × Option Error :=
  if s = [] then (0, some .parseSyntax) else ParseUintFrom s 0

/-- The text is a decimal unsigned 64-bit integer: decimal digits, one at least, of a
number below `2 ^ 64`. -/
def IsDecimalUint64 (s : GoString) : Prop :=
  s ≠ [] ∧ (∀ c ∈ s, 48 ≤ c ∧ c ≤ 57) ∧
    s.foldl (fun n c => 10 * n + (c - 48)) 0 < 2 ^ 64

instance (s : GoString) : Decidable (IsDecimalUint64 s) := by
  unfold IsDecimalUint64; infer_instance

/-- The string without the white space at its start, as `strings.TrimSpace` removes
it: the ASCII blanks and the white space of Unicode in UTF-8 (U+0085, U+00A0, U+1680,
U+2000 to U+200A, U+2028, U+2029, U+202F, U+205F, U+3000). -/
def trimLeft : GoString → GoString
  | 0xC2 :: 0x85 :: rest => trimLeft rest
  | 0xC2 :: 0xA0 :: rest => trimLeft rest
  | 0xE1 :: 0x9A :: 0x80 :: rest => trimLeft rest
  | 0xE2 :: 0x80 :: b :: rest =>
    if (0x80 ≤ b ∧ b ≤ 0x8A) ∨ b = 0xA8 ∨ b = 0xA9 ∨ b = 0xAF then trimLeft rest
    else 0xE2 :: 0x80 :: b :: rest
  | 0xE2 :: 0x81 :: 0x9F :: rest => trimLeft rest
  | 0xE3 :: 0x80 :: 0x80 :: rest => trimLeft rest
  | b :: rest =>
    if (9 ≤ b ∧ b ≤ 13) ∨ b = 32 then trimLeft rest else b :: rest
  | [] => []

/-- The reversed string without the white space at its start, which is the white
space at the end of the string, read backwards. -/
def trimLeftReversed : GoString → GoString
  | 0x85 :: 0xC2 :: rest => trimLeftReversed rest
  | 0xA0 :: 0xC2 :: rest => trimLeftReversed rest
  | 0x80 :: 0x9A :: 0xE1 :: rest => trimLeftReversed rest
  | b :: 0x80 :: 0xE2 :: rest =>
    if (0x80 ≤ b ∧ b ≤ 0x8A) ∨ b = 0xA8 ∨ b = 0xA9 ∨ b = 0xAF then trimLeftReversed rest
    else if (9 ≤ b ∧ b ≤ 13) ∨ b = 32 then trimLeftReversed (0x80 :: 0xE2 :: rest)
    else b :: 0x80 :: 0xE2 :: rest
  | 0x9F :: 0x81 :: 0xE2 :: rest => trimLeftReversed rest
  | 0x80 :: 0x80 :: 0xE3 :: rest => trimLeftReversed rest
  | b :: rest =>
    if (9 ≤ b ∧ b ≤ 13) ∨ b = 32 then trimLeftReversed rest else b :: rest
  | [] => []

/-- The function `strings.TrimSpace`. -/
def TrimSpace (s : GoString) : GoString :=
  (trimLeftReversed (trimLeft s).reverse).reverse

/-! ## The REPL (`repl/repl.go`, `repl/prompt.go`)

A command of the REPL acts on a session: the wallet, the file system, what the user
will type and what the key generator will give, and it adds to the requests sent. What
a command prints is not part of the embedding. -/

/-- The parts of the program that are not among the sources or lie outside the
repository: the signer `ed25519.Sign2` and the functions `BytesToAddress` and
`HexToAddress` of the package `wallet/address`. -/
structure Env where
  Sign2 : List Nat → List Nat → Run (List Nat)
  BytesToAddress : List Nat → List Nat
  HexToAddress : GoString → List Nat

/-- What a command of the REPL acts on. `input` holds what `prompt.Input` returns, call
after call; `generated` holds what `ed25519.GenerateKey` returns, call after call;
`sent` holds the requests sent so far. -/
structure Session where
  client : WalletBE
  fs : FS
  input : List GoString
  generated : List (List Nat × List Nat × Option Error)
  sent : List Request

/-- Why a command does not return: a panic, a call of `os.Exit`, or a wait for the
user or the key generator that nothing in the session ends. -/
inductive Halt where
  | panic
  | exit
  | waiting
  deriving DecidableEq, Repr

/-- How a step of a command ends: with a value, or not at all; and the session then. -/
inductive Step (α : Type) where
  | done (a : α) (r : Session)
  | halt (why : Halt) (r : Session)

/-- The steps that follow a step that is done. -/
def Step.bind {α β : Type} (x : Step α) (f : α → Session → Step β) : Step β :=
  match x with
  | .done a r => f a r
  | .halt why r => .halt why r

/-- The session at the end of a step. -/
def Step.session {α : Type} : Step α → Session
  | .done _ r => r
  | .halt _ r => r

/-- The step returned. -/
def Step.returned {α : Type} : Step α → Bool
  | .done _ _ => true
  | .halt _ _ => false

/-- The string is blank for `inputNotBlank`: `strings.TrimSpace` leaves nothing. -/
def isBlank (s : GoString) : Bool := TrimSpace s = []

/-- The loop of `inputNotBlank` on what the user types: the first input that is not
blank, and the inputs after it. -/
def inputNotBlankFrom : List GoString → Option (GoString × List GoString)
  | [] => none
  | x :: rest => if isBlank x then inputNotBlankFrom rest else some (x, rest)

/-- The function `inputNotBlank`. -/
def inputNotBlank (r : Session) : Step GoString :=
  match inputNotBlankFrom r.input with
  | none => .halt .waiting { r with input := [] }
  | some (x, rest) => .done x { r with input := rest }

/-- The loop of `yesOrNoQuestion` on what the user types: the first input that is `y`
or `n`, and the inputs after it. -/
def yesOrNoFrom : List GoString → Option (GoString × List GoString)
  | [] => none
  | x :: rest => if x = lit "y" ∨ x = lit "n" then some (x, rest) else yesOrNoFrom rest

/-- The function `yesOrNoQuestion`. -/
def yesOrNoQuestion (r : Session) : Step GoString :=
  match yesOrNoFrom r.input with
  | none => .halt .waiting { r with input := [] }
  | some (x, rest) => .done x { r with input := rest }

/-- The loop of `multipleChoice` on what the user types: the first input that is one
of the names is returned; an input that is `quit` or `exit` between blanks ends the
program. -/
def multipleChoiceFrom (names : List GoString) : List GoString →
    Option (Option GoString × List GoString)
  | [] => none
  | x :: rest =>
    if x ∈ names then some (some x, rest)
    else if TrimSpace x = lit "quit" ∨ TrimSpace x = lit "exit" then some (none, rest)
    else multipleChoiceFrom names rest

/-- The function `multipleChoice`. -/
def multipleChoice (names : List GoString) (r : Session) : Step GoString :=
  if names.length = 0 then .done [] r
  else
    match multipleChoiceFrom names r.input with
    | none => .halt .waiting { r with input := [] }
    | some (none, rest) => .halt .exit { r with input := rest }
    | some (some x, rest) => .done x { r with input := rest }

/-- The method `repl.createAccount`. Reading the name of a nil account panics. -/
def createAccount (r : Session) : Step Unit :=
  (inputNotBlank r).bind fun alias_ r =>
    match r.generated with
    | [] => .halt .waiting r
    | g :: later =>
      match r.client.Store.CreateAccount g alias_ with
      | .panics => .halt .panic { r with generated := later }
      | .returns (ac, store) =>
        let r := { r with generated := later, client := { r.client with Store := store } }
        match r.client.StoreAccounts r.fs with
        | (some _, fs) => .done () { r with fs := fs }
        | (none, fs) =>
          match ac with
          | none => .halt .panic { r with fs := fs }
          | some a =>
            .done () { r with fs := fs, client := r.client.SetCurrentAccount (some a) }

/-- The method `repl.chooseAccount`. -/
def chooseAccount (r : Session) : Step Unit :=
  let accs := r.client.Store.ListAccounts
  if accs.length = 0 then createAccount r
  else
    (multipleChoice accs r).bind fun accName r =>
      match (r.client.Store.GetAccount accName).1 with
      | (_, some _) => .halt .panic r
      | (none, none) => .halt .panic r
      | (some account, none) =>
        .done () { r with client := r.client.SetCurrentAccount (some account) }

/-- The lines that open the commands: the current account, after `chooseAccount` when
there is none. -/
def currentOrChosen (r : Session) : Step (Option Account) :=
  match r.client.CurrentAccount with
  | some acc => .done (some acc) r
  | none => (chooseAccount r).bind fun _ r => .done r.client.CurrentAccount r

/-- The session after these requests are sent. -/
def Session.send (r : Session) (sent : List Request) : Session :=
  { r with sent := r.sent ++ sent }

/-- The method `repl.accountInfo`. Reading the key of a nil account panics. -/
def accountInfo (env : Env) (r : Session) : Step Unit :=
  (currentOrChosen r).bind fun acc r =>
    match acc with
    | none => .halt .panic r
    | some acc =>
      let address := env.BytesToAddress acc.PubKey
      match r.client.HTTPRequester.AccountInfo (EncodeToString (AddressBytes address)) with
      | (.panics, sent) => .halt .panic (r.send sent)
      | (.returns _, sent) => .done () (r.send sent)

/-- The method `repl.listTxs`. -/
def listTxs (env : Env) (r : Session) : Step Unit :=
  (currentOrChosen r).bind fun acc r =>
    match acc with
    | none => .halt .panic r
    | some acc =>
      match r.client.HTTPRequester.ListTxs (StringAddress (acc.Address env.BytesToAddress)) with
      | (.panics, sent) => .halt .panic (r.send sent)
      | (.returns _, sent) => .done () (r.send sent)

/-- The method `repl.coinbase`. -/
def coinbase (env : Env) (r : Session) : Step Unit :=
  (currentOrChosen r).bind fun acc r =>
    match acc with
    | none => .halt .panic r
    | some acc =>
      match r.client.HTTPRequester.SetCoinbase
          (StringAddress (acc.Address env.BytesToAddress)) with
      | (.panics, sent) => .halt .panic (r.send sent)
      | (.returns _, sent) => .done () (r.send sent)

/-- The method `repl.transferCoins`. The error of `ParseUint` is looked at for the gas
price; for the nonce and for the amount it is not. -/
def transferCoins (env : Env) (r : Session) : Step Unit :=
  (currentOrChosen r).bind fun acc r =>
    match acc with
    | none => .halt .panic r
    | some acc =>
      let srcAddress := env.BytesToAddress acc.PubKey
      match r.client.HTTPRequester.AccountInfo (EncodeToString (AddressBytes srcAddress)) with
      | (.panics, sent) => .halt .panic (r.send sent)
      | (.returns (_, some _), sent) => .done () (r.send sent)
      | (.returns (none, none), sent) => .halt .panic (r.send sent)
      | (.returns (some info, none), sent) =>
        (inputNotBlank (r.send sent)).bind fun destAddressStr r =>
          let destAddress := env.HexToAddress destAddressStr
          (inputNotBlank r).bind fun amountStr r =>
            let confirm (gas : Nat) (r : Session) : Step Unit :=
              let nonce := (ParseUint info.Nonce).1
              let amount := (ParseUint amountStr).1
              (yesOrNoQuestion r).bind fun answer r =>
                if answer = lit "y" then
                  match r.client.Transfer env.Sign2 destAddress nonce amount gas 100
                      acc.PrivKey with
                  | (.panics, sent) => .halt .panic (r.send sent)
                  | (.returns _, sent) => .done () (r.send sent)
                else .done () r
            (yesOrNoQuestion r).bind fun useDefault r =>
              if useDefault = lit "n" then
                (inputNotBlank r).bind fun gasStr r =>
                  match ParseUint gasStr with
                  | (_, some _) => .done () r
                  | (gas, none) => confirm gas r
              else confirm 1 r

/-- The text of a JSON array of these byte values: the decimal numerals between
brackets, with a comma between two of them. -/
def jsonArrayText (b : List Nat) : GoString :=
  lit "[" ++ (lit ",").intercalate (b.map Itoa) ++ lit "]"

/-- The call `http.NewRequest` fails on the request, so that nothing is sent. -/
def Exchange.rejects : Exchange → Bool
  | .rejected _ => true
  | _ => false

/-- The body of a request that names an address: the JSON object with the one member
`address`, holding this text. -/
def addressBody (text : GoString) : GoString :=
  lit "\x7b \"address\": \"" ++ text ++ lit "\"\x7d"

/-- The body of a request that names the address of an account: the JSON object with
the one member `account`, itself an object with the one member `address`, holding this
text. -/
def accountAddressBody (text : GoString) : GoString :=
  lit "\x7b \"account\": \x7b \"address\": \"" ++ text ++ lit "\"\x7d \x7d"

/-! ## More values for the examples -/

/-- A node that answers every request with the value `3` and the id `7`. -/
def answeringNode : HTTPRequester :=
  { Client := fun _ => .response 200 (.json (.object
      [(lit "value", .string (lit "3")), (lit "id", .string (lit "7"))])),
    url := lit "http://localhost:9090/v1" }

/-- The parts outside the sources, for the examples: a signer that returns the same 64
bytes, the last 20 bytes of a key as its address, and one address for every text. -/
def exampleEnv : Env :=
  { Sign2 := constSigner,
    BytesToAddress := fun b => b.drop (b.length - 20),
    HexToAddress := fun _ => List.replicate 20 171 }

/-- An account for the examples. -/
def alice : Account :=
  { Name := lit "alice", PrivKey := List.replicate 64 9, PubKey := List.replicate 32 5 }

/-- A session of a wallet with `alice` as the current account, where the user types the
given lines. -/
def sessionOf (hr : HTTPRequester) (input : List GoString) : Session :=
  { client := (freshWallet hr).SetCurrentAccount (some alice), fs := emptyFS,
    input := input, generated := [], sent := [] }

/-! ## Lemmas on the encoders -/

theorem EncodeUhyper_length (v : Nat) : (EncodeUhyper v).length = 8 := rfl

theorem EncodeUhyper_isBytes (v : Nat) : IsBytes (EncodeUhyper v) := by
  intro x hx
  simp only [EncodeUhyper, List.mem_cons, List.mem_singleton, List.not_mem_nil, or_false] at hx
  omega

theorem beValue_EncodeUhyper (v : Nat) (h : v < 2 ^ 64) : beValue (EncodeUhyper v) = v := by
  simp only [beValue, EncodeUhyper, List.foldl]
  omega

theorem EncodeUhyper_bigEndian (v : Nat) (h : v < 2 ^ 64) : IsBigEndian8 (EncodeUhyper v) v :=
  ⟨EncodeUhyper_length v, EncodeUhyper_isBytes v, beValue_EncodeUhyper v h⟩

theorem EncodeUhyper_inj (v w : Nat) (hv : v < 2 ^ 64) (hw : w < 2 ^ 64)
    (h : EncodeUhyper v = EncodeUhyper w) : v = w := by
  rw [← beValue_EncodeUhyper v hv, ← beValue_EncodeUhyper w hw, h]

theorem EncodeFixedOpaque_of_length_mod (b : List Nat) (h : b.length % 4 = 0) :
    EncodeFixedOpaque b = b := by
  simp [EncodeFixedOpaque, h]

theorem xdrEncode_inner_general (t : InnerSerializableSignedTransaction) :
    xdrEncode t.toXdr = .ok (innerBytes t) := by
  simp [InnerSerializableSignedTransaction.toXdr, xdrEncode, xdrEncodeStruct, innerBytes]

/-- The bytes written for an unsigned transaction with a 20-byte recipient. -/
theorem xdrEncode_inner (t : InnerSerializableSignedTransaction) (h : t.Recipient.length = 20) :
    xdrEncode t.toXdr = .ok (EncodeUhyper t.AccountNonce ++ (t.Recipient ++
      (EncodeUhyper t.GasLimit ++ (EncodeUhyper t.Price ++ EncodeUhyper t.Amount)))) := by
  have h4 : t.Recipient.length % 4 = 0 := by omega
  rw [xdrEncode_inner_general, innerBytes, EncodeFixedOpaque_of_length_mod _ h4]

theorem xdrEncode_signed_general (t : SerializableSignedTransaction) :
    xdrEncode t.toXdr = .ok (innerBytes t.Inner ++ EncodeFixedOpaque t.Signature) := by
  rw [SerializableSignedTransaction.toXdr, xdrEncode, xdrEncodeStruct,
    xdrEncode_inner_general]
  simp [xdrEncodeStruct, xdrEncode]

theorem copyInto_length (dst src : List Nat) : (copyInto dst src).length = dst.length := by
  simp only [copyInto, List.length_append, List.length_take, List.length_drop]
  omega

theorem copyInto_of_length_eq (dst src : List Nat) (h : src.length = dst.length) :
    copyInto dst src = src := by
  simp [copyInto, ← h]

/-- An error returned by `Send` comes with the empty id. -/
theorem Send_error_id (m : HTTPRequester) (b : List Nat) (id : GoString) (err : Error)
    (h : (m.Send b).1 = .returns (id, some err)) : id = [] := by
  unfold HTTPRequester.Send at h
  simp only at h
  split at h
  · simp at h
  · simp only [Run.returns.injEq, Prod.mk.injEq] at h
    exact h.1.symm
  · split at h
    · simp only [Run.returns.injEq, Prod.mk.injEq] at h
      exact h.1.symm
    · simp at h
    · simp at h

/-- C2: for every unsigned transaction (four `uint64`, a 20-byte recipient),
`InterfaceToBytes` of its `InnerSerializableSignedTransaction` succeeds with exactly 52
bytes: the 8-byte big-endian `AccountNonce`, the 20 `Recipient` bytes, the 8-byte
big-endian `GasLimit`, the 8-byte big-endian `Price`, the 8-byte big-endian `Amount`,
with nothing before, between or after them. -/
theorem inner_encoding_layout (t : InnerSerializableSignedTransaction) (h : t.WellFormed) :
    ∃ n g p a : List Nat,
      InterfaceToBytes t.toXdr = (some (n ++ t.Recipient ++ g ++ p ++ a), none) ∧
      IsBigEndian8 n t.AccountNonce ∧ IsBigEndian8 g t.GasLimit ∧
      IsBigEndian8 p t.Price ∧ IsBigEndian8 a t.Amount ∧
      (n ++ t.Recipient ++ g ++ p ++ a).length = 52 := by
  obtain ⟨hn, hr, -, hg, hp, ha⟩ := h
  refine ⟨EncodeUhyper t.AccountNonce, EncodeUhyper t.GasLimit, EncodeUhyper t.Price,
    EncodeUhyper t.Amount, ?_, EncodeUhyper_bigEndian _ hn, EncodeUhyper_bigEndian _ hg,
    EncodeUhyper_bigEndian _ hp, EncodeUhyper_bigEndian _ ha, ?_⟩
  · simp [InterfaceToBytes, xdrEncode_inner t hr]
  · simp [EncodeUhyper_length, hr]

theorem inner_encoding_layout_witness :
    (⟨3, List.replicate 20 171, 100, 1, 50⟩ : InnerSerializableSignedTransaction).WellFormed ∧
    ∃ n g p a : List Nat,
      InterfaceToBytes
        (⟨3, List.replicate 20 171, 100, 1, 50⟩ : InnerSerializableSignedTransaction).toXdr
        = (some (n ++ List.replicate 20 171 ++ g ++ p ++ a), none) ∧
      IsBigEndian8 n 3 ∧ IsBigEndian8 g 100 ∧ IsBigEndian8 p 1 ∧ IsBigEndian8 a 50 ∧
      (n ++ List.replicate 20 171 ++ g ++ p ++ a).length = 52 :=
  ⟨by decide, inner_encoding_layout ⟨3, List.replicate 20 171, 100, 1, 50⟩ (by decide)⟩

/-- C3: the encoding of the unsigned transaction is deterministic and injective: two
unsigned transactions with the same nonce, recipient, amount, gas price and gas limit
encode to the same bytes, and two that differ in any of these fields encode to different
bytes. -/
theorem inner_encoding_injective (t u : InnerSerializableSignedTransaction)
    (ht : t.WellFormed) (hu : u.WellFormed) :
    InterfaceToBytes t.toXdr = InterfaceToBytes u.toXdr ↔ t = u := by
  constructor
  · intro h
    obtain ⟨htn, htr, -, htg, htp, hta⟩ := ht
    obtain ⟨hun, hur, -, hug, hup, hua⟩ := hu
    simp only [InterfaceToBytes, xdrEncode_inner t htr, xdrEncode_inner u hur, Prod.mk.injEq,
      Option.some.injEq, and_true] at h
    obtain ⟨h1, h⟩ := List.append_inj h (by simp [EncodeUhyper_length])
    obtain ⟨h2, h⟩ := List.append_inj h (by rw [htr, hur])
    obtain ⟨h3, h⟩ := List.append_inj h (by simp [EncodeUhyper_length])
    obtain ⟨h4, h5⟩ := List.append_inj h (by simp [EncodeUhyper_length])
    cases t; cases u
    simp only [InnerSerializableSignedTransaction.mk.injEq]
    exact ⟨EncodeUhyper_inj _ _ htn hun h1, h2, EncodeUhyper_inj _ _ htg hug h3,
      EncodeUhyper_inj _ _ htp hup h4, EncodeUhyper_inj _ _ hta hua h5⟩
  · intro h
    rw [h]

theorem inner_encoding_injective_witness :
    (⟨3, List.replicate 20 171, 100, 1, 50⟩ : InnerSerializableSignedTransaction).WellFormed ∧
    (⟨3, List.replicate 20 171, 100, 1, 51⟩ : InnerSerializableSignedTransaction).WellFormed ∧
    (InterfaceToBytes
        (⟨3, List.replicate 20 171, 100, 1, 50⟩ : InnerSerializableSignedTransaction).toXdr =
      InterfaceToBytes
        (⟨3, List.replicate 20 171, 100, 1, 51⟩ : InnerSerializableSignedTransaction).toXdr ↔
      (⟨3, List.replicate 20 171, 100, 1, 50⟩ : InnerSerializableSignedTransaction) =
        ⟨3, List.replicate 20 171, 100, 1, 51⟩) :=
  ⟨by decide, by decide, inner_encoding_injective _ _ (by decide) (by decide)⟩

/-! ## Transfer -/

/-- The message that `Transfer` signs and the bytes it sends, for a signer that
returns. -/
theorem Transfer_eq (w : WalletBE) (Sign2 : List Nat → List Nat → Run (List Nat))
    (recipient : List Nat) (nonce amount gasPrice gasLimit : Nat) (key sig : List Nat)
    (hsig : Sign2 key (innerBytes ⟨nonce, recipient, gasLimit, gasPrice, amount⟩) =
      .returns sig) :
    w.Transfer Sign2 recipient nonce amount gasPrice gasLimit key =
      w.HTTPRequester.Send (innerBytes ⟨nonce, recipient, gasLimit, gasPrice, amount⟩ ++
        copyInto (List.replicate 64 0) sig) := by
  have h64 : (copyInto (List.replicate 64 0) sig).length % 4 = 0 := by
    rw [copyInto_length]; rfl
  simp only [WalletBE.Transfer, InterfaceToBytes, xdrEncode_inner_general,
    xdrEncode_signed_general, hsig, EncodeFixedOpaque_of_length_mod _ h64, Option.getD_some]

/-- C1: for every recipient, nonce, amount, gas price, gas limit and key, the message
`Transfer` hands to the signer is the encoding of the five unsigned fields alone, 52
bytes in which the `Signature` field has no part: `Transfer` behaves the same with any
two signers that agree on that one message, so the signer is asked about no other
bytes. The bytes `Transfer` hands to `Send` are exactly that message followed by the 64
signature bytes the signer returned. -/
theorem transfer_signs_unsigned_sends_signed (w : WalletBE)
    (Sign2 : List Nat → List Nat → Run (List Nat))
    (recipient : List Nat) (nonce amount gasPrice gasLimit : Nat) (key sig : List Nat)
    (hrec : recipient.length = 20)
    (hsig : Sign2 key (innerBytes ⟨nonce, recipient, gasLimit, gasPrice, amount⟩) =
      .returns sig)
    (hlen : sig.length = 64) :
    InterfaceToBytes
        (⟨nonce, recipient, gasLimit, gasPrice, amount⟩ :
          InnerSerializableSignedTransaction).toXdr =
      (some (innerBytes ⟨nonce, recipient, gasLimit, gasPrice, amount⟩), none) ∧
    (innerBytes ⟨nonce, recipient, gasLimit, gasPrice, amount⟩).length = 52 ∧
    (∀ Sign2' : List Nat → List Nat → Run (List Nat),
      Sign2' key (innerBytes ⟨nonce, recipient, gasLimit, gasPrice, amount⟩) = .returns sig →
      w.Transfer Sign2' recipient nonce amount gasPrice gasLimit key =
        w.Transfer Sign2 recipient nonce amount gasPrice gasLimit key) ∧
    w.Transfer Sign2 recipient nonce amount gasPrice gasLimit key =
      w.HTTPRequester.Send
        (innerBytes ⟨nonce, recipient, gasLimit, gasPrice, amount⟩ ++ sig) := by
  refine ⟨?_, ?_, ?_, ?_⟩
  · simp [InterfaceToBytes, xdrEncode_inner_general]
  · have h4 : recipient.length % 4 = 0 := by omega
    simp [innerBytes, EncodeUhyper_length, EncodeFixedOpaque_of_length_mod _ h4, hrec]
  · intro Sign2' h
    rw [Transfer_eq w Sign2 recipient nonce amount gasPrice gasLimit key sig hsig,
      Transfer_eq w Sign2' recipient nonce amount gasPrice gasLimit key sig h]
  · rw [Transfer_eq w Sign2 recipient nonce amount gasPrice gasLimit key sig hsig,
      copyInto_of_length_eq _ _ (by simpa using hlen)]

theorem transfer_signs_unsigned_sends_signed_witness :
    (List.replicate 20 171).length = 20 ∧
    constSigner (List.replicate 64 9) (innerBytes ⟨3, List.replicate 20 171, 100, 1, 50⟩) =
      .returns (List.replicate 64 7) ∧
    (List.replicate 64 7).length = 64 ∧
    InterfaceToBytes
        (⟨3, List.replicate 20 171, 100, 1, 50⟩ : InnerSerializableSignedTransaction).toXdr =
      (some (innerBytes ⟨3, List.replicate 20 171, 100, 1, 50⟩), none) ∧
    (innerBytes ⟨3, List.replicate 20 171, 100, 1, 50⟩).length = 52 ∧
    (∀ Sign2' : List Nat → List Nat → Run (List Nat),
      Sign2' (List.replicate 64 9) (innerBytes ⟨3, List.replicate 20 171, 100, 1, 50⟩) =
        .returns (List.replicate 64 7) →
      (freshWallet acceptingNode).Transfer Sign2' (List.replicate 20 171) 3 50 1 100
          (List.replicate 64 9) =
        (freshWallet acceptingNode).Transfer constSigner (List.replicate 20 171) 3 50 1 100
          (List.replicate 64 9)) ∧
    (freshWallet acceptingNode).Transfer constSigner (List.replicate 20 171) 3 50 1 100
        (List.replicate 64 9) =
      (freshWallet acceptingNode).HTTPRequester.Send
        (innerBytes ⟨3, List.replicate 20 171, 100, 1, 50⟩ ++ List.replicate 64 7) :=
  ⟨by decide, by decide, by decide,
    transfer_signs_unsigned_sends_signed (freshWallet acceptingNode) constSigner
      (List.replicate 20 171) 3 50 1 100 (List.replicate 64 9) (List.replicate 64 7)
      (by decide) (by decide) (by decide)⟩

/-- C4: for every recipient, every four amounts and every key on which the signer
returns, the two encodings in `Transfer` succeed and `Transfer` ends as `Send` ends on
the encoded bytes: it returns an error exactly when `Send` returns one, the same error
with the empty id, and it returns the id of `Send` and no error when `Send`
succeeds. -/
theorem transfer_fails_exactly_as_send (w : WalletBE)
    (Sign2 : List Nat → List Nat → Run (List Nat))
    (recipient : List Nat) (nonce amount gasPrice gasLimit : Nat) (key sig : List Nat)
    (hsig : Sign2 key (innerBytes ⟨nonce, recipient, gasLimit, gasPrice, amount⟩) =
      .returns sig) :
    ∃ b : List Nat,
      (InterfaceToBytes
        (⟨nonce, recipient, gasLimit, gasPrice, amount⟩ :
          InnerSerializableSignedTransaction).toXdr).2 = none ∧
      InterfaceToBytes
        (⟨⟨nonce, recipient, gasLimit, gasPrice, amount⟩,
          copyInto (List.replicate 64 0) sig⟩ : SerializableSignedTransaction).toXdr =
        (some b, none) ∧
      (∀ err : Error,
        (∃ id, (w.Transfer Sign2 recipient nonce amount gasPrice gasLimit key).1 =
            .returns (id, some err)) ↔
        ∃ id, (w.HTTPRequester.Send b).1 = .returns (id, some err)) ∧
      (∀ (id : GoString) (err : Error),
        (w.Transfer Sign2 recipient nonce amount gasPrice gasLimit key).1 =
          .returns (id, some err) → id = []) ∧
      (∀ id : GoString,
        (w.Transfer Sign2 recipient nonce amount gasPrice gasLimit key).1 =
          .returns (id, none) ↔
        (w.HTTPRequester.Send b).1 = .returns (id, none)) ∧
      (w.Transfer Sign2 recipient nonce amount gasPrice gasLimit key).2 =
        (w.HTTPRequester.Send b).2 := by
  have h64 : (copyInto (List.replicate 64 0) sig).length % 4 = 0 := by
    rw [copyInto_length]; rfl
  have ht := Transfer_eq w Sign2 recipient nonce amount gasPrice gasLimit key sig hsig
  refine ⟨innerBytes ⟨nonce, recipient, gasLimit, gasPrice, amount⟩ ++
    copyInto (List.replicate 64 0) sig, ?_, ?_, ?_, ?_, ?_, ?_⟩
  · simp [InterfaceToBytes, xdrEncode_inner_general]
  · simp only [InterfaceToBytes, xdrEncode_signed_general,
      EncodeFixedOpaque_of_length_mod _ h64]
  · intro err
    rw [ht]
  · intro id err h
    rw [ht] at h
    exact Send_error_id _ _ id err h
  · intro id
    rw [ht]
  · rw [ht]

theorem transfer_fails_exactly_as_send_witness :
    constSigner (List.replicate 64 9) (innerBytes ⟨3, List.replicate 20 171, 100, 1, 50⟩) =
      .returns (List.replicate 64 7) ∧
    ∃ b : List Nat,
      (InterfaceToBytes
        (⟨3, List.replicate 20 171, 100, 1, 50⟩ :
          InnerSerializableSignedTransaction).toXdr).2 = none ∧
      InterfaceToBytes
        (⟨⟨3, List.replicate 20 171, 100, 1, 50⟩,
          copyInto (List.replicate 64 0) (List.replicate 64 7)⟩ :
            SerializableSignedTransaction).toXdr =
        (some b, none) ∧
      (∀ err : Error,
        (∃ id, ((freshWallet unreachableNode).Transfer constSigner (List.replicate 20 171)
            3 50 1 100 (List.replicate 64 9)).1 = .returns (id, some err)) ↔
        ∃ id, ((freshWallet unreachableNode).HTTPRequester.Send b).1 =
          .returns (id, some err)) ∧
      (∀ (id : GoString) (err : Error),
        ((freshWallet unreachableNode).Transfer constSigner (List.replicate 20 171)
            3 50 1 100 (List.replicate 64 9)).1 = .returns (id, some err) → id = []) ∧
      (∀ id : GoString,
        ((freshWallet unreachableNode).Transfer constSigner (List.replicate 20 171)
            3 50 1 100 (List.replicate 64 9)).1 = .returns (id, none) ↔
        ((freshWallet unreachableNode).HTTPRequester.Send b).1 = .returns (id, none)) ∧
      ((freshWallet unreachableNode).Transfer constSigner (List.replicate 20 171)
            3 50 1 100 (List.replicate 64 9)).2 =
        ((freshWallet unreachableNode).HTTPRequester.Send b).2 :=
  ⟨by decide, transfer_fails_exactly_as_send (freshWallet unreachableNode) constSigner
    (List.replicate 20 171) 3 50 1 100 (List.replicate 64 9) (List.replicate 64 7)
    (by decide)⟩

/-- C5, the claim fails: a wallet with no current account selected, a node that
accepts and a signer that returns. `Transfer` returns the id of the node with no
error, and it has sent one request to the node. -/
theorem transfer_without_current_account_submits :
    (freshWallet acceptingNode).CurrentAccount = none ∧
    ((freshWallet acceptingNode).Transfer constSigner (List.replicate 20 171) 3 50 1 100
        (List.replicate 64 9)).1 = .returns (lit "7", none) ∧
    (((freshWallet acceptingNode).Transfer constSigner (List.replicate 20 171) 3 50 1 100
        (List.replicate 64 9)).2.map Request.url) =
      [lit "http://localhost:9090/v1/submittransaction"] := by
  decide

/-- C5 as amended: `Transfer` does not consult the current account of the wallet. It
signs with the key it is given, and whatever account is selected, or none, it ends as
`Send` ends on the signed bytes and sends the same requests. -/
theorem transfer_ignores_current_account (w : WalletBE) (a : Option Account)
    (Sign2 : List Nat → List Nat → Run (List Nat))
    (recipient : List Nat) (nonce amount gasPrice gasLimit : Nat) (key sig : List Nat)
    (hsig : Sign2 key (innerBytes ⟨nonce, recipient, gasLimit, gasPrice, amount⟩) =
      .returns sig) :
    (w.SetCurrentAccount a).Transfer Sign2 recipient nonce amount gasPrice gasLimit key =
      w.Transfer Sign2 recipient nonce amount gasPrice gasLimit key ∧
    (w.SetCurrentAccount none).Transfer Sign2 recipient nonce amount gasPrice gasLimit key =
      w.HTTPRequester.Send (innerBytes ⟨nonce, recipient, gasLimit, gasPrice, amount⟩ ++
        copyInto (List.replicate 64 0) sig) := by
  constructor
  · rfl
  · rw [← Transfer_eq w Sign2 recipient nonce amount gasPrice gasLimit key sig hsig]
    rfl

theorem transfer_ignores_current_account_witness :
    constSigner (List.replicate 64 9) (innerBytes ⟨3, List.replicate 20 171, 100, 1, 50⟩) =
      .returns (List.replicate 64 7) ∧
    ((freshWallet acceptingNode).SetCurrentAccount
        (some ⟨lit "alice", List.replicate 64 9, List.replicate 32 9⟩)).Transfer constSigner
        (List.replicate 20 171) 3 50 1 100 (List.replicate 64 9) =
      (freshWallet acceptingNode).Transfer constSigner (List.replicate 20 171) 3 50 1 100
        (List.replicate 64 9) ∧
    ((freshWallet acceptingNode).SetCurrentAccount none).Transfer constSigner
        (List.replicate 20 171) 3 50 1 100 (List.replicate 64 9) =
      (freshWallet acceptingNode).HTTPRequester.Send
        (innerBytes ⟨3, List.replicate 20 171, 100, 1, 50⟩ ++
          copyInto (List.replicate 64 0) (List.replicate 64 7)) :=
  ⟨by decide, transfer_ignores_current_account (freshWallet acceptingNode)
    (some ⟨lit "alice", List.replicate 64 9, List.replicate 32 9⟩) constSigner
    (List.replicate 20 171) 3 50 1 100 (List.replicate 64 9) (List.replicate 64 7)
    (by decide)⟩

/-! ## Hexadecimal text -/

theorem fromHexChar_hexDigit : ∀ n < 16, fromHexChar (hexDigit n) = some n := by
  decide

theorem DecodeString_EncodeToString (b : List Nat) (h : IsBytes b) :
    DecodeString (EncodeToString b) = (b, none) := by
  induction b with
  | nil => rfl
  | cons v rest ih =>
    have hv : v < 256 := h v (List.mem_cons_self _ _)
    have hrest : IsBytes rest := fun x hx => h x (List.mem_cons_of_mem _ hx)
    have h1 := fromHexChar_hexDigit (v / 16) (by omega)
    have h2 := fromHexChar_hexDigit (v % 16) (by omega)
    simp only [EncodeToString, DecodeString, h1, h2, ih hrest]
    congr 2
    omega

theorem fromHexChar_isSome_iff (c : Nat) : (∃ a, fromHexChar c = some a) ↔ IsHexDigit c := by
  unfold fromHexChar IsHexDigit
  split
  · simp; omega
  · split
    · simp; omega
    · split
      · simp; omega
      · simp; omega

theorem fromHexChar_eq_none_iff (c : Nat) : fromHexChar c = none ↔ ¬ IsHexDigit c := by
  rw [← fromHexChar_isSome_iff]
  cases fromHexChar c <;> simp

theorem hexDigit_eq : ∀ n < 16, hexDigit n = if n < 10 then n + 48 else n + 87 := by
  decide

theorem hexDigit_fromHexChar (c a : Nat) (h : fromHexChar c = some a) :
    a < 16 ∧ hexDigit a = lowerHex c := by
  unfold fromHexChar at h
  unfold lowerHex
  split at h
  · simp only [Option.some.injEq] at h
    have ha : a < 16 := by omega
    refine ⟨ha, ?_⟩
    rw [hexDigit_eq a ha]
    (repeat' split) <;> omega
  · split at h
    · simp only [Option.some.injEq] at h
      have ha : a < 16 := by omega
      refine ⟨ha, ?_⟩
      rw [hexDigit_eq a ha]
      (repeat' split) <;> omega
    · split at h
      · simp only [Option.some.injEq] at h
        have ha : a < 16 := by omega
        refine ⟨ha, ?_⟩
        rw [hexDigit_eq a ha]
        (repeat' split) <;> omega
      · simp at h

/-- What `DecodeString` does on a string: it succeeds exactly on the valid hex strings,
and then the bytes it returns, written back in hex, are the string with its letters made
small. -/
theorem DecodeString_spec (s : GoString) :
    ((DecodeString s).2 = none ↔ IsHexString s) ∧
    ((DecodeString s).2 = none →
      IsBytes (DecodeString s).1 ∧ EncodeToString (DecodeString s).1 = s.map lowerHex) := by
  induction s using DecodeString.induct with
  | case1 => simp [DecodeString, IsHexString, IsBytes, EncodeToString]
  | case2 c h =>
    simp [DecodeString, h, IsHexString]
  | case3 c a h =>
    simp [DecodeString, h, IsHexString]
  | case4 p q rest h =>
    have hp := (fromHexChar_eq_none_iff p).1 h
    simp [DecodeString, h, IsHexString, hp]
  | case5 p q rest a hp hq =>
    have hq' := (fromHexChar_eq_none_iff q).1 hq
    simp only [DecodeString, hp, hq, IsHexString, List.mem_cons, forall_eq_or_imp]
    simp [hq']
  | case6 p q rest a hp b hq ih =>
    have hp' := (fromHexChar_isSome_iff p).1 ⟨a, hp⟩
    have hq' := (fromHexChar_isSome_iff q).1 ⟨b, hq⟩
    obtain ⟨ha, hap⟩ := hexDigit_fromHexChar p a hp
    obtain ⟨hb, hbq⟩ := hexDigit_fromHexChar q b hq
    simp only [DecodeString, hp, hq]
    constructor
    · rw [ih.1]
      simp only [IsHexString, List.length_cons, List.mem_cons, forall_eq_or_imp, hp', hq',
        true_and]
      constructor
      · rintro ⟨h1, h2⟩
        exact ⟨by omega, h2⟩
      · rintro ⟨h1, h2⟩
        exact ⟨by omega, h2⟩
    · intro hnone
      obtain ⟨hbytes, henc⟩ := ih.2 hnone
      constructor
      · intro x hx
        rcases List.mem_cons.1 hx with rfl | hx
        · omega
        · exact hbytes x hx
      · have h1 : (a * 16 + b) / 16 = a := by omega
        have h2 : (a * 16 + b) % 16 = b := by omega
        simp only [EncodeToString, h1, h2, hap, hbq, List.map_cons]
        rw [← henc]

/-! ## Go maps -/

theorem lookupEntry_assignEntry_self {β : Type} (k : GoString) (v : β)
    (e : List (GoString × β)) : lookupEntry k (assignEntry k v e) = some v := by
  induction e with
  | nil => simp [assignEntry, lookupEntry]
  | cons x rest ih =>
    obtain ⟨k', v'⟩ := x
    by_cases h : k' = k
    · simp [assignEntry, lookupEntry, h]
    · simp [assignEntry, lookupEntry, h, ih]

theorem lookupEntry_assignEntry_of_ne {β : Type} (k k2 : GoString) (v : β)
    (e : List (GoString × β)) (hne : k2 ≠ k) :
    lookupEntry k2 (assignEntry k v e) = lookupEntry k2 e := by
  induction e with
  | nil => simp [assignEntry, lookupEntry, Ne.symm hne]
  | cons x rest ih =>
    obtain ⟨k', v'⟩ := x
    by_cases h : k' = k
    · subst h
      simp [assignEntry, lookupEntry, Ne.symm hne]
    · by_cases h2 : k' = k2
      · subst h2
        simp [assignEntry, lookupEntry, h]
      · simp [assignEntry, lookupEntry, h, h2, ih]

theorem lookupEntry_isSome_iff {β : Type} (k : GoString) (e : List (GoString × β)) :
    (∃ v, lookupEntry k e = some v) ↔ k ∈ e.map Prod.fst := by
  induction e with
  | nil => simp [lookupEntry]
  | cons x rest ih =>
    obtain ⟨k', v'⟩ := x
    by_cases h : k' = k
    · simp [lookupEntry, h]
    · simp only [lookupEntry, h, if_false, ih, List.map_cons, List.mem_cons]
      constructor
      · exact fun hm => Or.inr hm
      · rintro (hm | hm)
        · exact absurd hm.symm h
        · exact hm

theorem keys_assignEntry_of_mem {β : Type} (k : GoString) (v : β) (e : List (GoString × β))
    (h : k ∈ e.map Prod.fst) : (assignEntry k v e).map Prod.fst = e.map Prod.fst := by
  induction e with
  | nil => simp at h
  | cons x rest ih =>
    obtain ⟨k', v'⟩ := x
    by_cases hk : k' = k
    · simp [assignEntry, hk]
    · have hr : k ∈ rest.map Prod.fst := by
        rcases List.mem_cons.1 h with h1 | h1
        · exact absurd h1.symm hk
        · exact h1
      simp [assignEntry, hk, ih hr]

theorem assignEntry_of_not_mem {β : Type} (k : GoString) (v : β) (e : List (GoString × β))
    (h : k ∉ e.map Prod.fst) : assignEntry k v e = e ++ [(k, v)] := by
  induction e with
  | nil => rfl
  | cons x rest ih =>
    obtain ⟨k', v'⟩ := x
    have hk : ¬ k' = k := fun hk => h (by simp [hk])
    have hr : k ∉ rest.map Prod.fst := fun hr => h (List.mem_cons_of_mem _ hr)
    simp [assignEntry, hk, ih hr]

theorem mem_keys_assignEntry {β : Type} (k : GoString) (v : β) (e : List (GoString × β)) :
    k ∈ (assignEntry k v e).map Prod.fst :=
  (lookupEntry_isSome_iff k _).1 ⟨v, lookupEntry_assignEntry_self k v e⟩

theorem nodup_keys_assignEntry {β : Type} (k : GoString) (v : β) (e : List (GoString × β))
    (h : (e.map Prod.fst).Nodup) : ((assignEntry k v e).map Prod.fst).Nodup := by
  by_cases hk : k ∈ e.map Prod.fst
  · rw [keys_assignEntry_of_mem k v e hk]
    exact h
  · rw [assignEntry_of_not_mem k v e hk, List.map_append]
    simp only [List.map_cons, List.map_nil]
    exact List.Nodup.append h (List.nodup_singleton k) (by simpa using hk)

theorem foldl_append_keys (e : List (GoString × AccountKeys)) (acc : List GoString) :
    e.foldl (fun lst x => lst ++ [x.1]) acc = acc ++ e.map Prod.fst := by
  induction e generalizing acc with
  | nil => simp
  | cons x rest ih => simp [ih]

theorem ListAccounts_eq_keys (s : Store) : s.ListAccounts = s.keys := by
  simp [Store.ListAccounts, Store.keys, foldl_append_keys]

/-! ## Accounts -/

/-- C6: create-then-get round trip. For every store, alias and generated pair of keys
(byte sequences), when `CreateAccount` returns an account, `ListAccounts` of the store
contains the alias and `GetAccount` of the alias succeeds with an account of that
name, the same public key and the same private key, hence the same address, whatever
the function from keys to addresses is. -/
theorem create_then_get (s s2 : Store) (alias_ : GoString) (sPub key : List Nat)
    (genErr : Option Error) (acc : Account) (BytesToAddress : List Nat → List Nat)
    (hpub : IsBytes sPub) (hkey : IsBytes key)
    (hcreate : s.CreateAccount (sPub, key, genErr) alias_ = .returns (some acc, s2)) :
    alias_ ∈ s2.ListAccounts ∧
    ∃ got : Account, (s2.GetAccount alias_).1 = (some got, none) ∧
      got.Name = alias_ ∧ got.PubKey = acc.PubKey ∧ got.PrivKey = acc.PrivKey ∧
      got.Address BytesToAddress = acc.Address BytesToAddress := by
  cases genErr with
  | some e => simp [Store.CreateAccount] at hcreate
  | none =>
    cases s with
    | nil => simp [Store.CreateAccount] at hcreate
    | table e =>
      simp only [Store.CreateAccount, Run.returns.injEq, Prod.mk.injEq, Option.some.injEq]
        at hcreate
      obtain ⟨hacc, hs2⟩ := hcreate
      subst hacc hs2
      refine ⟨?_, ⟨alias_, key, sPub⟩, ?_, rfl, rfl, rfl, rfl⟩
      · rw [ListAccounts_eq_keys]
        exact mem_keys_assignEntry _ _ _
      · simp [Store.GetAccount, Store.index, Store.entries, lookupEntry_assignEntry_self,
          DecodeString_EncodeToString _ hpub, DecodeString_EncodeToString _ hkey]

theorem create_then_get_witness :
    IsBytes (List.replicate 32 200) ∧ IsBytes (List.replicate 64 201) ∧
    (Store.table []).CreateAccount (List.replicate 32 200, List.replicate 64 201, none)
        (lit "alice") =
      .returns (some ⟨lit "alice", List.replicate 64 201, List.replicate 32 200⟩,
        .table [(lit "alice", ⟨EncodeToString (List.replicate 32 200),
          EncodeToString (List.replicate 64 201)⟩)]) ∧
    lit "alice" ∈ (Store.table [(lit "alice", ⟨EncodeToString (List.replicate 32 200),
          EncodeToString (List.replicate 64 201)⟩)]).ListAccounts ∧
    ∃ got : Account,
      ((Store.table [(lit "alice", ⟨EncodeToString (List.replicate 32 200),
          EncodeToString (List.replicate 64 201)⟩)]).GetAccount (lit "alice")).1 =
        (some got, none) ∧
      got.Name = lit "alice" ∧
      got.PubKey = (⟨lit "alice", List.replicate 64 201, List.replicate 32 200⟩ : Account).PubKey ∧
      got.PrivKey =
        (⟨lit "alice", List.replicate 64 201, List.replicate 32 200⟩ : Account).PrivKey ∧
      got.Address (fun b => b.drop (b.length - 20)) =
        (⟨lit "alice", List.replicate 64 201, List.replicate 32 200⟩ : Account).Address
          (fun b => b.drop (b.length - 20)) :=
  ⟨by decide, by decide, by decide,
    create_then_get (.table []) _ (lit "alice") (List.replicate 32 200)
      (List.replicate 64 201) none _ (fun b => b.drop (b.length - 20))
      (by decide) (by decide) (by decide)⟩

/-- The cases of `GetAccount`: when it returns an error, which error for an absent name,
and what the account is when it returns one. -/
theorem GetAccount_cases (s : Store) (name : GoString) :
    ((s.GetAccount name).1.2 ≠ none ↔
      (s.index name = none ∨
        ∃ keys, s.index name = some keys ∧
          (¬ IsHexString keys.PubKey ∨ ¬ IsHexString keys.PrivKey))) ∧
    ((s.GetAccount name).1.2 ≠ none → (s.GetAccount name).1.1 = none) ∧
    (s.index name = none →
      (s.GetAccount name).1 = (none, some (.errorf (lit "account not found")))) ∧
    (∀ got : Account, (s.GetAccount name).1.1 = some got →
      (s.GetAccount name).1.2 = none ∧ got.Name = name ∧
      ∃ keys, s.index name = some keys ∧
        got.PubKey = (DecodeString keys.PubKey).1 ∧
        got.PrivKey = (DecodeString keys.PrivKey).1 ∧
        IsBytes got.PubKey ∧ IsBytes got.PrivKey ∧
        EncodeToString got.PubKey = keys.PubKey.map lowerHex ∧
        EncodeToString got.PrivKey = keys.PrivKey.map lowerHex) ∧
    (s.GetAccount name).2 = s := by
  cases hidx : s.index name with
  | none => simp [Store.GetAccount, hidx]
  | some keys =>
    have hpriv := DecodeString_spec keys.PrivKey
    have hpub := DecodeString_spec keys.PubKey
    cases h1 : DecodeString keys.PrivKey with
    | mk priv e1 =>
      cases h2 : DecodeString keys.PubKey with
      | mk pub e2 =>
        rw [h1] at hpriv
        rw [h2] at hpub
        simp only at hpriv hpub
        cases e1 with
        | some err1 =>
          have hbad : ¬ IsHexString keys.PrivKey := fun h => by simpa using hpriv.1.2 h
          simp [Store.GetAccount, hidx, h1, hbad]
        | none =>
          have hgood1 : IsHexString keys.PrivKey := hpriv.1.1 rfl
          cases e2 with
          | some err2 =>
            have hbad : ¬ IsHexString keys.PubKey := fun h => by simpa using hpub.1.2 h
            simp [Store.GetAccount, hidx, h1, h2, hbad]
          | none =>
            have hgood2 : IsHexString keys.PubKey := hpub.1.1 rfl
            obtain ⟨hb1, he1⟩ := hpriv.2 rfl
            obtain ⟨hb2, he2⟩ := hpub.2 rfl
            simp only [Store.GetAccount, hidx, h1, h2, ne_eq, not_true_eq_false, false_iff,
              not_or, not_exists, not_and, Option.some.injEq, false_implies, true_and,
              and_true]
            refine ⟨?_, ?_, ?_⟩
            · refine ⟨by simp, ?_⟩
              intro k hk
              subst hk
              exact ⟨by simpa using hgood2, by simpa using hgood1⟩
            · simp
            · intro got hgot
              subst hgot
              exact ⟨rfl, keys, rfl, by rw [h2], by rw [h1], hb2, hb1, he2, he1⟩

/-- On an entry whose two strings are valid hex `GetAccount` returns the account made of
the name and the decoded strings, and no error. -/
theorem GetAccount_of_hex (s : Store) (name : GoString) (keys : AccountKeys)
    (hidx : s.index name = some keys) (hpub : IsHexString keys.PubKey)
    (hpriv : IsHexString keys.PrivKey) :
    (s.GetAccount name).1 =
      (some ⟨name, (DecodeString keys.PrivKey).1, (DecodeString keys.PubKey).1⟩, none) := by
  have h1 := (DecodeString_spec keys.PrivKey).1.2 hpriv
  have h2 := (DecodeString_spec keys.PubKey).1.2 hpub
  cases hd1 : DecodeString keys.PrivKey with
  | mk priv e1 =>
    cases hd2 : DecodeString keys.PubKey with
    | mk pub e2 =>
      rw [hd1] at h1
      rw [hd2] at h2
      simp only at h1 h2
      subst h1 h2
      simp [Store.GetAccount, hidx, hd1, hd2]

/-- C7: for every store and name, `GetAccount` returns an error if and only if the name
is absent from the store or one of the stored strings is not valid hex. For an absent
name the error is `account not found`, and with an error no account is returned. On
success, that is for a name whose two stored strings are valid hex, `GetAccount` returns
an account and no error: the account has the name asked for and the keys that the
stored strings decode to, keys whose hex form is the stored string, letters made
small. The store after the call is the store before it. -/
theorem GetAccount_spec (s : Store) (name : GoString) :
    ((s.GetAccount name).1.2 ≠ none ↔
      (s.index name = none ∨
        ∃ keys, s.index name = some keys ∧
          (¬ IsHexString keys.PubKey ∨ ¬ IsHexString keys.PrivKey))) ∧
    ((s.GetAccount name).1.2 ≠ none → (s.GetAccount name).1.1 = none) ∧
    (s.index name = none →
      (s.GetAccount name).1 = (none, some (.errorf (lit "account not found")))) ∧
    (∀ keys : AccountKeys, s.index name = some keys →
      IsHexString keys.PubKey → IsHexString keys.PrivKey →
      (s.GetAccount name).1 =
        (some ⟨name, (DecodeString keys.PrivKey).1, (DecodeString keys.PubKey).1⟩, none)) ∧
    ((s.GetAccount name).1.2 = none → ∃ got : Account, (s.GetAccount name).1.1 = some got) ∧
    (∀ got : Account, (s.GetAccount name).1.1 = some got →
      (s.GetAccount name).1.2 = none ∧ got.Name = name ∧
      ∃ keys, s.index name = some keys ∧
        got.PubKey = (DecodeString keys.PubKey).1 ∧
        got.PrivKey = (DecodeString keys.PrivKey).1 ∧
        IsBytes got.PubKey ∧ IsBytes got.PrivKey ∧
        EncodeToString got.PubKey = keys.PubKey.map lowerHex ∧
        EncodeToString got.PrivKey = keys.PrivKey.map lowerHex) ∧
    (s.GetAccount name).2 = s := by
  obtain ⟨herr, hnone, habsent, hgot, hsame⟩ := GetAccount_cases s name
  refine ⟨herr, hnone, habsent, ?_, ?_, hgot, hsame⟩
  · intro keys hidx hpub hpriv
    exact GetAccount_of_hex s name keys hidx hpub hpriv
  · intro hok
    cases hidx : s.index name with
    | none =>
      have hbad := herr.2 (Or.inl hidx)
      exact absurd hok hbad
    | some keys =>
      by_cases hpub : IsHexString keys.PubKey
      · by_cases hpriv : IsHexString keys.PrivKey
        · exact ⟨_, by rw [GetAccount_of_hex s name keys hidx hpub hpriv]⟩
        · exact absurd hok (herr.2 (Or.inr ⟨keys, hidx, Or.inr hpriv⟩))
      · exact absurd hok (herr.2 (Or.inr ⟨keys, hidx, Or.inl hpub⟩))

/-- C8: for every store that already contains the alias, `CreateAccount` with a key
generation that succeeds returns an account: the entry of the alias now holds the hex
of the new keys, the entry of every other alias is as before, and the store has the
same keys and the same number of entries. -/
theorem create_overwrites_in_place (s : Store) (alias_ : GoString) (sPub key : List Nat)
    (old : AccountKeys) (hold : s.index alias_ = some old) :
    ∃ s2 : Store,
      s.CreateAccount (sPub, key, none) alias_ =
        .returns (some ⟨alias_, key, sPub⟩, s2) ∧
      s2.index alias_ = some ⟨EncodeToString sPub, EncodeToString key⟩ ∧
      (∀ other : GoString, other ≠ alias_ → s2.index other = s.index other) ∧
      s2.keys = s.keys ∧ s2.len = s.len ∧ (s.WellFormed → s2.WellFormed) := by
  cases s with
  | nil => simp [Store.index, Store.entries, lookupEntry] at hold
  | table e =>
    have hmem : alias_ ∈ e.map Prod.fst :=
      (lookupEntry_isSome_iff alias_ e).1 ⟨old, hold⟩
    have hkeys := keys_assignEntry_of_mem alias_
      (⟨EncodeToString sPub, EncodeToString key⟩ : AccountKeys) e hmem
    refine ⟨_, rfl, ?_, ?_, ?_, ?_, ?_⟩
    · exact lookupEntry_assignEntry_self _ _ _
    · intro other hne
      exact lookupEntry_assignEntry_of_ne _ _ _ _ hne
    · exact hkeys
    · have := congrArg List.length hkeys
      simpa [Store.len, Store.entries] using this
    · intro hwf
      simp only [Store.WellFormed, Store.keys, Store.entries] at hwf ⊢
      rw [hkeys]
      exact hwf

theorem create_overwrites_in_place_witness :
    (Store.table [(lit "alice", ⟨lit "0a", lit "0b"⟩), (lit "bob", ⟨lit "0c", lit "0d"⟩)]).index
        (lit "alice") = some ⟨lit "0a", lit "0b"⟩ ∧
    ∃ s2 : Store,
      (Store.table [(lit "alice", ⟨lit "0a", lit "0b"⟩),
          (lit "bob", ⟨lit "0c", lit "0d"⟩)]).CreateAccount ([200], [201, 202], none)
          (lit "alice") =
        .returns (some ⟨lit "alice", [201, 202], [200]⟩, s2) ∧
      s2.index (lit "alice") = some ⟨EncodeToString [200], EncodeToString [201, 202]⟩ ∧
      (∀ other : GoString, other ≠ lit "alice" →
        s2.index other =
          (Store.table [(lit "alice", ⟨lit "0a", lit "0b"⟩),
            (lit "bob", ⟨lit "0c", lit "0d"⟩)]).index other) ∧
      s2.keys = (Store.table [(lit "alice", ⟨lit "0a", lit "0b"⟩),
            (lit "bob", ⟨lit "0c", lit "0d"⟩)]).keys ∧
      s2.len = (Store.table [(lit "alice", ⟨lit "0a", lit "0b"⟩),
            (lit "bob", ⟨lit "0c", lit "0d"⟩)]).len ∧
      ((Store.table [(lit "alice", ⟨lit "0a", lit "0b"⟩),
            (lit "bob", ⟨lit "0c", lit "0d"⟩)]).WellFormed → s2.WellFormed) :=
  ⟨by decide, create_overwrites_in_place _ (lit "alice") [200] [201, 202]
    ⟨lit "0a", lit "0b"⟩ (by decide)⟩

/-! ## UTF-8 -/

theorem utf8First_two (b : Nat) (h1 : 0xC2 ≤ b) (h2 : b ≤ 0xDF) :
    utf8First b = some (2, 0x80, 0xBF) := by
  simp [utf8First, h1, h2]

theorem utf8First_three (b0 b1 : Nat)
    (h : (b0 = 0xE0 ∧ 0xA0 ≤ b1 ∧ b1 ≤ 0xBF) ∨
       (0xE1 ≤ b0 ∧ b0 ≤ 0xEC ∧ 0x80 ≤ b1 ∧ b1 ≤ 0xBF) ∨
       (b0 = 0xED ∧ 0x80 ≤ b1 ∧ b1 ≤ 0x9F) ∨
       (0xEE ≤ b0 ∧ b0 ≤ 0xEF ∧ 0x80 ≤ b1 ∧ b1 ≤ 0xBF)) :
    ∃ lo hi, utf8First b0 = some (3, lo, hi) ∧ lo ≤ b1 ∧ b1 ≤ hi := by
  unfold utf8First
  rcases h with ⟨h0, h1, h2⟩ | ⟨h0, h0', h1, h2⟩ | ⟨h0, h1, h2⟩ | ⟨h0, h0', h1, h2⟩
  · subst h0
    exact ⟨0xA0, 0xBF, by simp, h1, h2⟩
  · refine ⟨0x80, 0xBF, ?_, h1, h2⟩
    rw [if_neg (by omega), if_neg (by omega), if_pos ⟨h0, h0'⟩]
  · subst h0
    exact ⟨0x80, 0x9F, by simp, h1, h2⟩
  · refine ⟨0x80, 0xBF, ?_, h1, h2⟩
    rw [if_neg (by omega), if_neg (by omega), if_neg (by omega), if_neg (by omega),
      if_pos ⟨h0, h0'⟩]

theorem utf8First_four (b0 b1 : Nat)
    (h : (b0 = 0xF0 ∧ 0x90 ≤ b1 ∧ b1 ≤ 0xBF) ∨
       (0xF1 ≤ b0 ∧ b0 ≤ 0xF3 ∧ 0x80 ≤ b1 ∧ b1 ≤ 0xBF) ∨
       (b0 = 0xF4 ∧ 0x80 ≤ b1 ∧ b1 ≤ 0x8F)) :
    ∃ lo hi, utf8First b0 = some (4, lo, hi) ∧ lo ≤ b1 ∧ b1 ≤ hi := by
  unfold utf8First
  rcases h with ⟨h0, h1, h2⟩ | ⟨h0, h0', h1, h2⟩ | ⟨h0, h1, h2⟩
  · subst h0
    exact ⟨0x90, 0xBF, by simp, h1, h2⟩
  · refine ⟨0x80, 0xBF, ?_, h1, h2⟩
    rw [if_neg (by omega), if_neg (by omega), if_neg (by omega), if_neg (by omega),
      if_neg (by omega), if_neg (by omega), if_pos ⟨h0, h0'⟩]
  · subst h0
    exact ⟨0x80, 0x8F, by simp, h1, h2⟩

/-- The encoder leaves a well-formed UTF-8 string as it is. -/
theorem jsonString_of_valid (s : GoString) (h : ValidUTF8 s) : jsonString s = s := by
  unfold jsonString
  induction h with
  | nil => rfl
  | one b rest hb _ ih =>
    simp [coerceFrom, runeWidth, hb, ih]
  | two b0 b1 rest h1 h2 h3 h4 _ ih =>
    have hw : runeWidth (b0 :: b1 :: rest) = some 2 := by
      have hn : ¬ b0 < 0x80 := by omega
      have hr : ¬ (b1 < 0x80 ∨ 0xBF < b1) := by omega
      simp only [runeWidth, if_neg hn, utf8First_two b0 h1 h2, if_neg hr]
      simp
    simp [coerceFrom, hw, ih]
  | three b0 b1 b2 rest h01 h2 h3 _ ih =>
    have hw : runeWidth (b0 :: b1 :: b2 :: rest) = some 3 := by
      obtain ⟨lo, hi, hf, hlo, hhi⟩ := utf8First_three b0 b1 h01
      have hn : ¬ b0 < 0x80 := by omega
      have hr : ¬ (b1 < lo ∨ hi < b1) := by omega
      have hr2 : ¬ (b2 < 0x80 ∨ 0xBF < b2) := by omega
      simp only [runeWidth, if_neg hn, hf, if_neg hr, if_neg hr2]
      simp
    simp [coerceFrom, hw, ih]
  | four b0 b1 b2 b3 rest h01 h2 h3 h4 h5 _ ih =>
    have hw : runeWidth (b0 :: b1 :: b2 :: b3 :: rest) = some 4 := by
      obtain ⟨lo, hi, hf, hlo, hhi⟩ := utf8First_four b0 b1 h01
      have hn : ¬ b0 < 0x80 := by omega
      have hr : ¬ (b1 < lo ∨ hi < b1) := by omega
      have hr2 : ¬ (b2 < 0x80 ∨ 0xBF < b2) := by omega
      have hr3 : ¬ (b3 < 0x80 ∨ 0xBF < b3) := by omega
      simp only [runeWidth, if_neg hn, hf, if_neg hr, if_neg hr2, if_neg hr3]
      simp
    simp [coerceFrom, hw, ih]

/-- A string of ASCII characters is well-formed UTF-8. -/
theorem validUTF8_of_ascii (s : GoString) (h : ∀ b ∈ s, b < 0x80) : ValidUTF8 s := by
  induction s with
  | nil => exact .nil
  | cons b rest ih =>
    exact .one b rest (h b (List.mem_cons_self _ _))
      (ih fun x hx => h x (List.mem_cons_of_mem _ hx))

/-! ## The key file -/

theorem insertByKey_perm {β : Type} (x : GoString × β) (l : List (GoString × β)) :
    (insertByKey x l).Perm (x :: l) := by
  induction l with
  | nil => exact List.Perm.refl _
  | cons y rest ih =>
    unfold insertByKey
    split
    · exact (List.Perm.cons y ih).trans (List.Perm.swap x y rest)
    · exact List.Perm.refl _

theorem sortByKey_perm {β : Type} (l : List (GoString × β)) : (sortByKey l).Perm l := by
  induction l with
  | nil => exact List.Perm.refl _
  | cons x rest ih =>
    exact (insertByKey_perm x (sortByKey rest)).trans (List.Perm.cons x ih)

theorem lookupEntry_eq_some_iff {β : Type} (k : GoString) (v : β) (e : List (GoString × β))
    (h : (e.map Prod.fst).Nodup) : lookupEntry k e = some v ↔ (k, v) ∈ e := by
  induction e with
  | nil => simp [lookupEntry]
  | cons x rest ih =>
    obtain ⟨k', v'⟩ := x
    rw [List.map_cons, List.nodup_cons] at h
    by_cases hk : k' = k
    · subst hk
      have hnot : ∀ w, (k', w) ∉ rest := fun w hw =>
        h.1 (List.mem_map.2 ⟨(k', w), hw, rfl⟩)
      simp only [lookupEntry, if_true, Option.some.injEq, List.mem_cons, Prod.mk.injEq,
        true_and]
      constructor
      · intro hv
        exact Or.inl hv.symm
      · rintro (hv | hv)
        · exact hv.symm
        · exact absurd hv (hnot v)
    · simp only [lookupEntry, hk, if_false, ih h.2, List.mem_cons, Prod.mk.injEq]
      constructor
      · exact fun hm => Or.inr hm
      · rintro (hm | hm)
        · exact absurd hm.1.symm hk
        · exact hm

theorem lookupEntry_perm {β : Type} (k : GoString) (e1 e2 : List (GoString × β))
    (hp : e1.Perm e2) (h : (e2.map Prod.fst).Nodup) : lookupEntry k e1 = lookupEntry k e2 := by
  have h1 : (e1.map Prod.fst).Nodup := ((hp.map Prod.fst).nodup_iff).2 h
  apply Option.ext
  intro v
  rw [Option.mem_def, Option.mem_def, lookupEntry_eq_some_iff k v e1 h1,
    lookupEntry_eq_some_iff k v e2 h]
  exact hp.mem_iff

theorem matchField_pubkey : matchField (lit "pubkey") = some true := by decide

theorem matchField_privkey : matchField (lit "privkey") = some false := by decide

theorem decodeAccountKeys_recordJSON (k : AccountKeys) :
    decodeAccountKeys (recordJSON k) = (k, none) := by
  simp [decodeAccountKeys, recordJSON, decodeFields, matchField_pubkey, matchField_privkey]

theorem toJSON_of_valid (k : AccountKeys) (h1 : ValidUTF8 k.PubKey) (h2 : ValidUTF8 k.PrivKey) :
    k.toJSON = recordJSON k := by
  simp [AccountKeys.toJSON, recordJSON, jsonString_of_valid _ h1, jsonString_of_valid _ h2]

/-- Decoding the records of distinct keys adds them in order. -/
theorem decodeMembers_records (l acc : List (GoString × AccountKeys))
    (h : ((acc ++ l).map Prod.fst).Nodup) :
    decodeMembers (l.map fun kv => (kv.1, recordJSON kv.2)) (acc, none) =
      (acc ++ l, none) := by
  induction l generalizing acc with
  | nil => simp [decodeMembers]
  | cons x rest ih =>
    obtain ⟨k, v⟩ := x
    have hk : k ∉ acc.map Prod.fst := by
      intro hmem
      rw [List.map_append, List.nodup_append] at h
      exact h.2.2 hmem (by simp)
    have h2 : (((acc ++ [(k, v)]) ++ rest).map Prod.fst).Nodup := by
      simpa using h
    simp only [List.map_cons, decodeMembers, decodeAccountKeys_recordJSON, saveError,
      assignEntry_of_not_mem k v acc hk]
    rw [ih (acc ++ [(k, v)]) h2]
    simp

/-- What `LoadAccounts` reads back from the file that `StoreAccounts` wrote. -/
theorem LoadAccounts_StoreAccounts (fs : FS) (path : GoString)
    (e : List (GoString × AccountKeys)) (hwf : (Store.table e).WellFormed)
    (htext : (Store.table e).ValidText)
    (hsave : (StoreAccounts fs path (.table e)).1 = none) :
    LoadAccounts (StoreAccounts fs path (.table e)).2 path =
      (some (.table (sortByKey e)), none) := by
  have hperm := sortByKey_perm e
  have hnodup : ((sortByKey e).map Prod.fst).Nodup :=
    ((hperm.map Prod.fst).nodup_iff).2 hwf
  have hmap : ((sortByKey e).map fun kv => (jsonString kv.1, kv.2.toJSON)) =
      (sortByKey e).map fun kv => (kv.1, recordJSON kv.2) := by
    apply List.map_congr_left
    intro kv hkv
    obtain ⟨h1, h2, h3⟩ := htext kv (hperm.mem_iff.1 hkv)
    rw [jsonString_of_valid _ h1, toJSON_of_valid _ h2 h3]
  unfold StoreAccounts at hsave ⊢
  cases hc : fs.createErr path with
  | some err => simp [hc] at hsave
  | none =>
    cases hw : fs.writeErr path with
    | some err => simp [hc, hw] at hsave
    | none =>
      simp only [LoadAccounts, FS.put, if_true, Store.toJSON, decodeStore, hmap]
      rw [decodeMembers_records (sortByKey e) [] (by simpa using hnodup)]
      simp

/-- C9, the claim fails: a store whose alias is the single byte `FF`, which is not
UTF-8. `StoreAccounts` succeeds and `LoadAccounts` succeeds on what it wrote, but the
store read back has the alias `EF BF BD` (U+FFFD) in place of `FF`. -/
theorem save_then_load_changes_alias :
    (Store.table [([255], ⟨lit "0a", lit "0b"⟩)]).WellFormed ∧
    (StoreAccounts emptyFS (lit "accounts.json")
      (.table [([255], ⟨lit "0a", lit "0b"⟩)])).1 = none ∧
    LoadAccounts (StoreAccounts emptyFS (lit "accounts.json")
      (.table [([255], ⟨lit "0a", lit "0b"⟩)])).2 (lit "accounts.json") =
      (some (.table [([239, 191, 189], ⟨lit "0a", lit "0b"⟩)]), none) ∧
    (Store.table [([255], ⟨lit "0a", lit "0b"⟩)]).index [255] = some ⟨lit "0a", lit "0b"⟩ ∧
    (Store.table [([239, 191, 189], ⟨lit "0a", lit "0b"⟩)]).index [255] = none := by
  decide

/-- C9 as amended: save/load round trip for text. For every store whose aliases and
key strings are well-formed UTF-8, when `StoreAccounts` writes it without error,
`LoadAccounts` on the written file succeeds and returns a store with exactly the same
aliases, each with the same pubkey and privkey strings. -/
theorem save_then_load (fs : FS) (path : GoString) (s : Store) (hwf : s.WellFormed)
    (htext : s.ValidText) (hsave : (StoreAccounts fs path s).1 = none) :
    ∃ s2 : Store,
      LoadAccounts (StoreAccounts fs path s).2 path = (some s2, none) ∧
      (∀ name : GoString, s2.index name = s.index name) ∧
      s2.keys.Perm s.keys ∧ s2.len = s.len ∧ s2.WellFormed := by
  cases s with
  | nil =>
    refine ⟨.nil, ?_, fun _ => rfl, List.Perm.refl _, rfl, hwf⟩
    unfold StoreAccounts at hsave ⊢
    cases hc : fs.createErr path with
    | some err => simp [hc] at hsave
    | none =>
      cases hw : fs.writeErr path with
      | some err => simp [hc, hw] at hsave
      | none => simp [LoadAccounts, FS.put, Store.toJSON, decodeStore]
  | table e =>
    have hperm := sortByKey_perm e
    refine ⟨.table (sortByKey e), LoadAccounts_StoreAccounts fs path e hwf htext hsave,
      ?_, ?_, ?_, ?_⟩
    · intro name
      exact lookupEntry_perm name _ _ hperm hwf
    · exact hperm.map Prod.fst
    · exact hperm.length_eq
    · exact ((hperm.map Prod.fst).nodup_iff).2 hwf

theorem save_then_load_witness :
    (Store.table [([195, 169], ⟨lit "0a", lit "0b"⟩), (lit "bob", ⟨lit "0c", lit "0d"⟩)]).WellFormed ∧
    (Store.table [([195, 169], ⟨lit "0a", lit "0b"⟩), (lit "bob", ⟨lit "0c", lit "0d"⟩)]).ValidText ∧
    (StoreAccounts emptyFS (lit "accounts.json")
      (.table [([195, 169], ⟨lit "0a", lit "0b"⟩), (lit "bob", ⟨lit "0c", lit "0d"⟩)])).1 = none ∧
    ∃ s2 : Store,
      LoadAccounts (StoreAccounts emptyFS (lit "accounts.json")
        (.table [([195, 169], ⟨lit "0a", lit "0b"⟩), (lit "bob", ⟨lit "0c", lit "0d"⟩)])).2
        (lit "accounts.json") = (some s2, none) ∧
      (∀ name : GoString, s2.index name =
        (Store.table [([195, 169], ⟨lit "0a", lit "0b"⟩),
          (lit "bob", ⟨lit "0c", lit "0d"⟩)]).index name) ∧
      s2.keys.Perm (Store.table [([195, 169], ⟨lit "0a", lit "0b"⟩),
          (lit "bob", ⟨lit "0c", lit "0d"⟩)]).keys ∧
      s2.len = (Store.table [([195, 169], ⟨lit "0a", lit "0b"⟩),
          (lit "bob", ⟨lit "0c", lit "0d"⟩)]).len ∧
      s2.WellFormed :=
  have htext : (Store.table [([195, 169], ⟨lit "0a", lit "0b"⟩),
      (lit "bob", ⟨lit "0c", lit "0d"⟩)]).ValidText := by
    intro e he
    simp only [Store.entries, List.mem_cons, List.mem_singleton, List.not_mem_nil,
      or_false] at he
    rcases he with rfl | rfl
    · exact ⟨.two 195 169 [] (by decide) (by decide) (by decide) (by decide) .nil,
        validUTF8_of_ascii _ (by decide), validUTF8_of_ascii _ (by decide)⟩
    · exact ⟨validUTF8_of_ascii _ (by decide), validUTF8_of_ascii _ (by decide),
        validUTF8_of_ascii _ (by decide)⟩
  ⟨by decide, htext, by decide,
    save_then_load emptyFS (lit "accounts.json") _ (by decide) htext (by decide)⟩

theorem lookupEntry_append {β : Type} (k : GoString) (l1 l2 : List (GoString × β)) :
    lookupEntry k (l1 ++ l2) =
      match lookupEntry k l1 with
      | some v => some v
      | none => lookupEntry k l2 := by
  induction l1 with
  | nil => simp [lookupEntry]
  | cons x rest ih =>
    obtain ⟨k', v'⟩ := x
    by_cases h : k' = k
    · simp [lookupEntry, h]
    · simp [lookupEntry, h, ih]

/-- After the assignments of a list of records, a key holds the value of its last
record, or what it held before when it has no record. -/
theorem lookupEntry_foldl_assign {β : Type} (k : GoString) (recs acc : List (GoString × β)) :
    lookupEntry k (recs.foldl (fun a kv => assignEntry kv.1 kv.2 a) acc) =
      match lookupEntry k recs.reverse with
      | some v => some v
      | none => lookupEntry k acc := by
  induction recs generalizing acc with
  | nil => simp [lookupEntry]
  | cons x rest ih =>
    obtain ⟨k', v'⟩ := x
    rw [List.foldl_cons, ih, List.reverse_cons, lookupEntry_append]
    cases lookupEntry k rest.reverse with
    | some v => rfl
    | none =>
      by_cases h : k' = k
      · subst h
        simp [lookupEntry, lookupEntry_assignEntry_self]
      · have hne : k ≠ k' := fun hk => h hk.symm
        simp [lookupEntry, h, lookupEntry_assignEntry_of_ne _ _ _ _ hne]

theorem decodeMembers_records_general (recs acc : List (GoString × AccountKeys)) :
    decodeMembers (recs.map fun kv => (kv.1, recordJSON kv.2)) (acc, none) =
      (recs.foldl (fun a kv => assignEntry kv.1 kv.2 a) acc, none) := by
  induction recs generalizing acc with
  | nil => simp [decodeMembers]
  | cons x rest ih =>
    simp only [List.map_cons, decodeMembers, decodeAccountKeys_recordJSON, saveError,
      List.foldl_cons, ih]

theorem GetAccount_error_of_not_hex (s : Store) (name : GoString) (keys : AccountKeys)
    (hidx : s.index name = some keys)
    (hbad : ¬ IsHexString keys.PubKey ∨ ¬ IsHexString keys.PrivKey) :
    (s.GetAccount name).1.1 = none ∧ (s.GetAccount name).1.2 ≠ none := by
  have hpriv := (DecodeString_spec keys.PrivKey).1
  have hpub := (DecodeString_spec keys.PubKey).1
  cases h1 : DecodeString keys.PrivKey with
  | mk priv e1 =>
    cases h2 : DecodeString keys.PubKey with
    | mk pub e2 =>
      rw [h1] at hpriv
      rw [h2] at hpub
      cases e1 with
      | some err1 => simp [Store.GetAccount, hidx, h1]
      | none =>
        cases e2 with
        | some err2 => simp [Store.GetAccount, hidx, h1, h2]
        | none =>
          rcases hbad with hb | hb
          · exact absurd (hpub.1 rfl) hb
          · exact absurd (hpriv.1 rfl) hb

/-- C10, the claim fails: a key file that is a well-formed JSON object whose one record
has the pubkey `zz`, which is not hex. `LoadAccounts` returns no error and a store that
holds the string `zz`. -/
theorem load_accepts_non_hex :
    ¬ IsHexString (lit "zz") ∧
    LoadAccounts
      (emptyFS.put (lit "accounts.json")
        (.json (.object [(lit "alice", recordJSON ⟨lit "zz", lit "0b"⟩)])))
      (lit "accounts.json") =
      (some (.table [(lit "alice", ⟨lit "zz", lit "0b"⟩)]), none) := by
  decide

theorem lastText_cons_skip (isPub : Bool) (k : GoString) (v : JValue)
    (rest : List (GoString × JValue))
    (h : matchField k ≠ some isPub ∨ ∀ t, v ≠ .string t) :
    lastText isPub ((k, v) :: rest) = lastText isPub rest := by
  simp only [lastText]
  cases lastText isPub rest with
  | some t => rfl
  | none =>
    cases v with
    | string s =>
      rcases h with h | h
      · simp [h]
      · exact absurd rfl (h s)
    | null => rfl
    | bool b => rfl
    | number t => rfl
    | array l => rfl
    | object l => rfl

theorem lastText_cons_string (isPub : Bool) (k s : GoString)
    (rest : List (GoString × JValue)) (h : matchField k = some isPub) (d : GoString) :
    (lastText isPub ((k, .string s) :: rest)).getD d = (lastText isPub rest).getD s := by
  simp only [lastText]
  cases lastText isPub rest with
  | some t => rfl
  | none => simp [h]

/-- Decoding the members of a record of the right kinds: each field ends with the text
the record gives for it, or stays as it was, and no error is added. -/
theorem decodeFields_typed (members : List (GoString × JValue)) (k : AccountKeys)
    (e : Option Error)
    (h : ∀ m ∈ members, matchField m.1 ≠ none → (m.2 = .null ∨ ∃ t, m.2 = .string t)) :
    decodeFields members (k, e) =
      (⟨(lastText true members).getD k.PubKey, (lastText false members).getD k.PrivKey⟩, e) := by
  induction members generalizing k with
  | nil => rfl
  | cons m rest ih =>
    obtain ⟨key, v⟩ := m
    have hrest : ∀ m ∈ rest, matchField m.1 ≠ none → (m.2 = .null ∨ ∃ t, m.2 = .string t) :=
      fun m hm => h m (List.mem_cons_of_mem _ hm)
    have hhead := h (key, v) (List.mem_cons_self _ _)
    cases hm : matchField key with
    | none =>
      rw [lastText_cons_skip true key v rest (Or.inl (by simp [hm])),
        lastText_cons_skip false key v rest (Or.inl (by simp [hm]))]
      simp only [decodeFields, hm]
      exact ih k hrest
    | some isPub =>
      rcases hhead (by simp [hm]) with hv | ⟨t, hv⟩
      · subst hv
        rw [lastText_cons_skip true key .null rest (Or.inr (by simp)),
          lastText_cons_skip false key .null rest (Or.inr (by simp))]
        simp only [decodeFields, hm]
        exact ih k hrest
      · subst hv
        simp only [decodeFields, hm]
        cases isPub with
        | true =>
          rw [lastText_cons_string true key t rest hm,
            lastText_cons_skip false key (.string t) rest (Or.inl (by simp [hm]))]
          simp only [if_true]
          exact ih _ hrest
        | false =>
          rw [lastText_cons_string false key t rest hm,
            lastText_cons_skip true key (.string t) rest (Or.inl (by simp [hm]))]
          simp only [Bool.false_eq_true, if_false]
          exact ih _ hrest

theorem decodeFields_error_kept (members : List (GoString × JValue)) (k : AccountKeys)
    (e : Error) : (decodeFields members (k, some e)).2 = some e := by
  induction members generalizing k with
  | nil => rfl
  | cons m rest ih =>
    obtain ⟨key, v⟩ := m
    cases hm : matchField key with
    | none => simp only [decodeFields, hm]; exact ih k
    | some isPub =>
      cases v <;> simp only [decodeFields, hm, saveError] <;> exact ih _

/-- Decoding a record in which a member that selects a field holds neither a string nor
`null` ends with a type error. -/
theorem decodeFields_untyped (members : List (GoString × JValue)) (k : AccountKeys)
    (h : ∃ m ∈ members, matchField m.1 ≠ none ∧ m.2 ≠ .null ∧ ∀ t, m.2 ≠ .string t) :
    (decodeFields members (k, none)).2 = some .jsonType := by
  induction members generalizing k with
  | nil =>
    obtain ⟨m, hm, -⟩ := h
    simp at hm
  | cons m rest ih =>
    obtain ⟨key, v⟩ := m
    obtain ⟨bad, hbad, hsel, hnull, hstr⟩ := h
    have hrest : (bad = (key, v)) ∨ ∃ m ∈ rest, matchField m.1 ≠ none ∧ m.2 ≠ .null ∧
        ∀ t, m.2 ≠ .string t := by
      rcases List.mem_cons.1 hbad with hb | hb
      · exact Or.inl hb
      · exact Or.inr ⟨bad, hb, hsel, hnull, hstr⟩
    cases hm : matchField key with
    | none =>
      rcases hrest with hb | hr
      · subst hb
        exact absurd hm hsel
      · simp only [decodeFields, hm]
        exact ih k hr
    | some isPub =>
      cases v with
      | string s =>
        rcases hrest with hb | hr
        · subst hb
          exact absurd rfl (hstr s)
        · simp only [decodeFields, hm]
          exact ih _ hr
      | null =>
        rcases hrest with hb | hr
        · subst hb
          exact absurd rfl hnull
        · simp only [decodeFields, hm]
          exact ih _ hr
      | bool b =>
        simp only [decodeFields, hm, saveError]
        exact decodeFields_error_kept rest k .jsonType
      | number t =>
        simp only [decodeFields, hm, saveError]
        exact decodeFields_error_kept rest k .jsonType
      | array l =>
        simp only [decodeFields, hm, saveError]
        exact decodeFields_error_kept rest k .jsonType
      | object l =>
        simp only [decodeFields, hm, saveError]
        exact decodeFields_error_kept rest k .jsonType

theorem decodeAccountKeys_typed (v : JValue) (h : TypedRecord v) :
    decodeAccountKeys v = (recordKeys v, none) := by
  rcases h with h | ⟨members, h, hm⟩
  · subst h
    rfl
  · subst h
    simp only [decodeAccountKeys, recordKeys]
    exact decodeFields_typed members ⟨[], []⟩ none hm

theorem decodeAccountKeys_untyped (v : JValue) (h : ¬ TypedRecord v) :
    (decodeAccountKeys v).2 = some .jsonType := by
  cases v with
  | null => exact absurd (Or.inl rfl) h
  | bool b => rfl
  | number t => rfl
  | string t => rfl
  | array l => rfl
  | object members =>
    simp only [decodeAccountKeys]
    apply decodeFields_untyped
    by_contra hno
    apply h
    refine Or.inr ⟨members, rfl, ?_⟩
    intro m hm hsel
    by_contra hkind
    apply hno
    refine ⟨m, hm, hsel, ?_, ?_⟩
    · intro hnull
      exact hkind (Or.inl hnull)
    · intro t ht
      exact hkind (Or.inr ⟨t, ht⟩)

theorem decodeMembers_error_kept (recs : List (GoString × JValue))
    (acc : List (GoString × AccountKeys)) (e : Error) :
    (decodeMembers recs (acc, some e)).2 = some e := by
  induction recs generalizing acc with
  | nil => rfl
  | cons x rest ih =>
    obtain ⟨key, v⟩ := x
    simp only [decodeMembers, saveError]
    exact ih _

theorem decodeMembers_typed (recs : List (GoString × JValue))
    (acc : List (GoString × AccountKeys)) (h : ∀ kv ∈ recs, TypedRecord kv.2) :
    decodeMembers recs (acc, none) =
      (recs.foldl (fun a kv => assignEntry kv.1 (recordKeys kv.2) a) acc, none) := by
  induction recs generalizing acc with
  | nil => rfl
  | cons x rest ih =>
    obtain ⟨key, v⟩ := x
    have hv := h (key, v) (List.mem_cons_self _ _)
    simp only [decodeMembers, decodeAccountKeys_typed v hv, saveError, List.foldl_cons]
    exact ih _ fun kv hkv => h kv (List.mem_cons_of_mem _ hkv)

theorem decodeMembers_untyped (recs : List (GoString × JValue))
    (acc : List (GoString × AccountKeys)) (h : ∃ kv ∈ recs, ¬ TypedRecord kv.2) :
    (decodeMembers recs (acc, none)).2 = some .jsonType := by
  induction recs generalizing acc with
  | nil =>
    obtain ⟨kv, hkv, -⟩ := h
    simp at hkv
  | cons x rest ih =>
    obtain ⟨key, v⟩ := x
    by_cases hv : TypedRecord v
    · obtain ⟨bad, hbad, hnot⟩ := h
      have hr : ∃ kv ∈ rest, ¬ TypedRecord kv.2 := by
        rcases List.mem_cons.1 hbad with hb | hb
        · subst hb
          exact absurd hv hnot
        · exact ⟨bad, hb, hnot⟩
      simp only [decodeMembers, decodeAccountKeys_typed v hv, saveError]
      exact ih _ hr
    · simp only [decodeMembers, decodeAccountKeys_untyped v hv, saveError]
      exact decodeMembers_error_kept rest _ .jsonType

theorem lookupEntry_map {β γ : Type} (f : β → γ) (k : GoString) (l : List (GoString × β)) :
    lookupEntry k (l.map fun kv => (kv.1, f kv.2)) = (lookupEntry k l).map f := by
  induction l with
  | nil => rfl
  | cons x rest ih =>
    obtain ⟨k', v⟩ := x
    by_cases h : k' = k
    · simp [lookupEntry, h]
    · simp [lookupEntry, h, ih]

/-- After the records of a key file are assigned one after the other, an alias holds the
keys of its last record. -/
theorem lookupEntry_foldl_records (name : GoString) (recs : List (GoString × JValue)) :
    lookupEntry name (recs.foldl (fun a kv => assignEntry kv.1 (recordKeys kv.2) a) []) =
      (lookupEntry name recs.reverse).map recordKeys := by
  have h := lookupEntry_foldl_assign name (recs.map fun kv => (kv.1, recordKeys kv.2)) []
  rw [List.foldl_map] at h
  rw [h, ← List.map_reverse, lookupEntry_map]
  cases lookupEntry name recs.reverse <;> rfl

/-- A record with a number under a name that folds to `pubkey` makes `LoadAccounts` fail
with a type error, whatever its other members are. -/
theorem load_rejects_mistyped_member :
    LoadAccounts
      (emptyFS.put (lit "accounts.json")
        (.json (.object [(lit "alice", .object [(lit "pubkey", .string (lit "0a")),
          (lit "privkey", .string (lit "0b")), (lit "PUBKEY", .number (lit "5"))])])))
      (lit "accounts.json") = (none, some .jsonType) := by
  decide

/-- C10 as amended: for a key file content that is a well-formed JSON object,
`LoadAccounts` looks at the JSON kinds only and never at the hex. When every record is
`null` or an object whose members naming pubkey or privkey (up to the case of letters)
hold strings or `null`, `LoadAccounts` succeeds whether the strings are hex or not, and
the store it returns holds for each alias the keys of its last record as written: the
string of the last pubkey member and that of the last privkey member. A string that is
not hex is reported by `GetAccount` for that alias, which returns no account and an
error. When a record is of another kind, `LoadAccounts` fails with a type error and
returns no store. -/
theorem load_keeps_strings_as_written (fs : FS) (path : GoString)
    (recs : List (GoString × JValue))
    (hfile : fs.state path = .file (.json (.object recs))) :
    ((∀ kv ∈ recs, TypedRecord kv.2) →
      ∃ s : Store,
        LoadAccounts fs path = (some s, none) ∧
        (∀ name : GoString, s.index name = (lookupEntry name recs.reverse).map recordKeys) ∧
        (∀ (name : GoString) (keys : AccountKeys), s.index name = some keys →
          (¬ IsHexString keys.PubKey ∨ ¬ IsHexString keys.PrivKey) →
          (s.GetAccount name).1.1 = none ∧ (s.GetAccount name).1.2 ≠ none)) ∧
    ((∃ kv ∈ recs, ¬ TypedRecord kv.2) →
      LoadAccounts fs path = (none, some .jsonType)) := by
  constructor
  · intro htyped
    refine ⟨.table (recs.foldl (fun a kv => assignEntry kv.1 (recordKeys kv.2) a) []),
      ?_, ?_, ?_⟩
    · simp [LoadAccounts, hfile, decodeStore, decodeMembers_typed recs [] htyped]
    · intro name
      exact lookupEntry_foldl_records name recs
    · intro name keys hidx hbad
      exact GetAccount_error_of_not_hex _ name keys hidx hbad
  · intro hbad
    have h := decodeMembers_untyped recs [] hbad
    simp only [LoadAccounts, hfile, decodeStore]
    cases hd : decodeMembers recs ([], none) with
    | mk e err =>
      rw [hd] at h
      simp only at h
      subst h
      rfl

theorem load_keeps_strings_as_written_witness :
    (emptyFS.put (lit "accounts.json")
        (.json (.object [(lit "alice", .object [(lit "privkey", .string (lit "0b")),
          (lit "comment", .number (lit "5")), (lit "PubKey", .string (lit "zz"))])]))).state
        (lit "accounts.json") =
      .file (.json (.object [(lit "alice", .object [(lit "privkey", .string (lit "0b")),
          (lit "comment", .number (lit "5")), (lit "PubKey", .string (lit "zz"))])])) ∧
    ¬ IsHexString (lit "zz") ∧
    ∃ s : Store,
      LoadAccounts (emptyFS.put (lit "accounts.json")
        (.json (.object [(lit "alice", .object [(lit "privkey", .string (lit "0b")),
          (lit "comment", .number (lit "5")), (lit "PubKey", .string (lit "zz"))])])))
        (lit "accounts.json") = (some s, none) ∧
      s.index (lit "alice") = some ⟨lit "zz", lit "0b"⟩ ∧
      (s.GetAccount (lit "alice")).1.1 = none ∧ (s.GetAccount (lit "alice")).1.2 ≠ none := by
  have hfile : (emptyFS.put (lit "accounts.json")
        (.json (.object [(lit "alice", .object [(lit "privkey", .string (lit "0b")),
          (lit "comment", .number (lit "5")), (lit "PubKey", .string (lit "zz"))])]))).state
        (lit "accounts.json") =
      .file (.json (.object [(lit "alice", .object [(lit "privkey", .string (lit "0b")),
          (lit "comment", .number (lit "5")), (lit "PubKey", .string (lit "zz"))])])) := by
    simp [FS.put]
  have htyped : ∀ kv ∈ [(lit "alice", JValue.object [(lit "privkey", .string (lit "0b")),
      (lit "comment", .number (lit "5")), (lit "PubKey", .string (lit "zz"))])],
      TypedRecord kv.2 := by
    intro kv hkv
    simp only [List.mem_singleton] at hkv
    subst hkv
    refine Or.inr ⟨_, rfl, ?_⟩
    intro m hm hsel
    simp only [List.mem_cons, List.mem_singleton, List.not_mem_nil, or_false] at hm
    rcases hm with rfl | rfl | rfl
    · exact Or.inr ⟨_, rfl⟩
    · exact absurd (by decide) hsel
    · exact Or.inr ⟨_, rfl⟩
  obtain ⟨s, hload, hidx, hget⟩ :=
    (load_keeps_strings_as_written _ (lit "accounts.json") _ hfile).1 htyped
  have halice : s.index (lit "alice") = some ⟨lit "zz", lit "0b"⟩ := by
    rw [hidx]
    decide
  exact ⟨hfile, by decide, s, hload, halice,
    hget (lit "alice") ⟨lit "zz", lit "0b"⟩ halice (Or.inl (by decide))⟩

/-! ## Listing the accounts -/

theorem DecodeString_error_ne_errorf (s msg : GoString) :
    (DecodeString s).2 ≠ some (.errorf msg) := by
  induction s using DecodeString.induct with
  | case1 => simp [DecodeString]
  | case2 c h => simp [DecodeString, h]
  | case3 c a h => simp [DecodeString, h]
  | case4 p q rest h => simp [DecodeString, h]
  | case5 p q rest a hp hq => simp [DecodeString, hp, hq]
  | case6 p q rest a hp b hq ih => simpa [DecodeString, hp, hq] using ih

/-- When the name has an entry, `GetAccount` does not report `account not found`. -/
theorem GetAccount_found (s : Store) (name : GoString) (keys : AccountKeys)
    (hidx : s.index name = some keys) :
    (s.GetAccount name).1.2 ≠ some (.errorf (lit "account not found")) := by
  have h1 := DecodeString_error_ne_errorf keys.PrivKey (lit "account not found")
  have h2 := DecodeString_error_ne_errorf keys.PubKey (lit "account not found")
  cases hpriv : DecodeString keys.PrivKey with
  | mk priv e1 =>
    cases hpub : DecodeString keys.PubKey with
    | mk pub e2 =>
      rw [hpriv] at h1
      rw [hpub] at h2
      cases e1 with
      | some err1 => simpa [Store.GetAccount, hidx, hpriv] using h1
      | none =>
        cases e2 with
        | some err2 => simpa [Store.GetAccount, hidx, hpriv, hpub] using h2
        | none => simp [Store.GetAccount, hidx, hpriv, hpub]

/-- C11: for every store, `ListAccounts` returns a list as long as the store has
entries and without duplicates, and its elements are exactly the aliases of the store:
a name is in the list if and only if the store has an entry for it, which is if and
only if `GetAccount` does not report it as not found. -/
theorem ListAccounts_spec (s : Store) (hwf : s.WellFormed) :
    s.ListAccounts.length = s.len ∧ s.ListAccounts.Nodup ∧
    (∀ name : GoString, name ∈ s.ListAccounts ↔ ∃ keys, s.index name = some keys) ∧
    (∀ name : GoString, name ∈ s.ListAccounts ↔
      (s.GetAccount name).1.2 ≠ some (.errorf (lit "account not found"))) := by
  have hmem : ∀ name : GoString, name ∈ s.ListAccounts ↔ ∃ keys, s.index name = some keys := by
    intro name
    rw [ListAccounts_eq_keys]
    exact (lookupEntry_isSome_iff name s.entries).symm
  refine ⟨?_, ?_, hmem, ?_⟩
  · rw [ListAccounts_eq_keys]
    simp [Store.keys, Store.len]
  · rw [ListAccounts_eq_keys]
    exact hwf
  · intro name
    rw [hmem name]
    constructor
    · rintro ⟨keys, hk⟩
      exact GetAccount_found s name keys hk
    · intro hne
      cases hidx : s.index name with
      | some keys => exact ⟨keys, rfl⟩
      | none =>
        exfalso
        apply hne
        simp [Store.GetAccount, hidx]

theorem ListAccounts_spec_witness :
    (Store.table [(lit "alice", ⟨lit "0a", lit "0b"⟩), (lit "bob", ⟨lit "zz", lit "0d"⟩)]).WellFormed ∧
    (Store.table [(lit "alice", ⟨lit "0a", lit "0b"⟩),
      (lit "bob", ⟨lit "zz", lit "0d"⟩)]).ListAccounts.length =
      (Store.table [(lit "alice", ⟨lit "0a", lit "0b"⟩), (lit "bob", ⟨lit "zz", lit "0d"⟩)]).len ∧
    (Store.table [(lit "alice", ⟨lit "0a", lit "0b"⟩),
      (lit "bob", ⟨lit "zz", lit "0d"⟩)]).ListAccounts.Nodup ∧
    (∀ name : GoString,
      name ∈ (Store.table [(lit "alice", ⟨lit "0a", lit "0b"⟩),
        (lit "bob", ⟨lit "zz", lit "0d"⟩)]).ListAccounts ↔
      ∃ keys, (Store.table [(lit "alice", ⟨lit "0a", lit "0b"⟩),
        (lit "bob", ⟨lit "zz", lit "0d"⟩)]).index name = some keys) ∧
    (∀ name : GoString,
      name ∈ (Store.table [(lit "alice", ⟨lit "0a", lit "0b"⟩),
        (lit "bob", ⟨lit "zz", lit "0d"⟩)]).ListAccounts ↔
      ((Store.table [(lit "alice", ⟨lit "0a", lit "0b"⟩),
        (lit "bob", ⟨lit "zz", lit "0d"⟩)]).GetAccount name).1.2 ≠
        some (.errorf (lit "account not found"))) :=
  ⟨by decide, ListAccounts_spec _ (by decide)⟩

/-! ## Start of the wallet -/

/-- `LoadAccounts` returns a store and no error, or no store and an error. -/
theorem LoadAccounts_cases (fs : FS) (path : GoString) :
    (∃ st, LoadAccounts fs path = (some st, none)) ∨
    (∃ err, LoadAccounts fs path = (none, some err)) := by
  unfold LoadAccounts
  cases fs.state path with
  | absent => exact Or.inr ⟨_, rfl⟩
  | unreadable err => exact Or.inr ⟨_, rfl⟩
  | file content =>
    cases hd : decodeStore content with
    | mk cfg e =>
      cases e with
      | none => exact Or.inl ⟨cfg, by simp [hd]⟩
      | some err => exact Or.inr ⟨err, by simp [hd]⟩

/-- C13, the claim fails: a key file that exists and whose content is not JSON.
`LoadAccounts` returns the syntax error, and `NewWalletBE` returns no error and a wallet
with an empty store. -/
theorem NewWalletBE_swallows_malformed_file :
    LoadAccounts (emptyFS.put (lit "data/accounts.json") .malformed)
        (lit "data/accounts.json") = (none, some .jsonSyntax) ∧
    ∃ w : WalletBE,
      NewWalletBE (fun dir file => dir ++ lit "/" ++ file) acceptingNode.Client
          (emptyFS.put (lit "data/accounts.json") .malformed)
          (lit "localhost:9090") (lit "data") = .returns (some w, none) ∧
      w.Store = .table [] ∧ w.currentAccount = none :=
  ⟨by decide, _, rfl, rfl, rfl⟩

/-- C13 as amended: at wallet startup every failure of `LoadAccounts` is swallowed, not
only a missing key file. Whatever the files are, `NewWalletBE` returns a wallet and no
error, with no current account; the store of the wallet is the loaded one when
`LoadAccounts` succeeds and an empty one when it fails, be the file absent, unreadable
or malformed. -/
theorem NewWalletBE_swallows_every_load_error (Join : GoString → GoString → GoString)
    (net : Request → Exchange) (fs : FS) (serverHostPort datadir : GoString) :
    ∃ w : WalletBE,
      NewWalletBE Join net fs serverHostPort datadir = .returns (some w, none) ∧
      w.currentAccount = none ∧
      w.accountsFilePath = Join datadir (lit "accounts.json") ∧
      (∀ st : Store, LoadAccounts fs (Join datadir (lit "accounts.json")) = (some st, none) →
        w.Store = st) ∧
      (∀ err : Error, (LoadAccounts fs (Join datadir (lit "accounts.json"))).2 = some err →
        w.Store = .table []) ∧
      (fs.state (Join datadir (lit "accounts.json")) = .absent → w.Store = .table []) ∧
      (fs.state (Join datadir (lit "accounts.json")) = .file .malformed →
        w.Store = .table []) := by
  have hname : accountsFileName = lit "accounts.json" := rfl
  rcases LoadAccounts_cases fs (Join datadir (lit "accounts.json")) with ⟨st, h⟩ | ⟨err, h⟩
  · refine ⟨_, by simp only [NewWalletBE, hname, h]; rfl, rfl, rfl, ?_, ?_, ?_, ?_⟩
    · intro st2 h2
      rw [h] at h2
      simp only [Prod.mk.injEq, Option.some.injEq, and_true] at h2
      exact h2
    · intro err2 h2
      rw [h] at h2
      simp at h2
    · intro habs
      simp [LoadAccounts, habs] at h
    · intro hmal
      simp [LoadAccounts, hmal, decodeStore] at h
  · refine ⟨_, by simp only [NewWalletBE, hname, h]; rfl, rfl, rfl, ?_, ?_, ?_, ?_⟩
    · intro st2 h2
      rw [h] at h2
      simp at h2
    · intro _ _
      rfl
    · intro _
      rfl
    · intro _
      rfl

/-! ## The body of a submission -/

/-- C15, the code at the failing input: for the empty byte sequence `printBuffer`
returns `]` and not `[]`, so that the body `Send` posts is `{ "tx": ]}`, which is not
JSON. -/
theorem printBuffer_empty :
    printBuffer [] = lit "]" ∧ printBuffer [] ≠ lit "[]" ∧
    (acceptingNode.Send []).2 =
      [⟨lit "http://localhost:9090/v1/submittransaction", lit "\x7b \"tx\": ]\x7d"⟩] := by
  decide

theorem foldl_printBuffer (b : List Nat) (acc : GoString) :
    b.foldl (fun st byt => st ++ (Itoa byt ++ lit ",")) acc =
      acc ++ (b.map fun x => Itoa x ++ lit ",").flatten := by
  induction b generalizing acc with
  | nil => simp
  | cons x rest ih => simp [ih]

theorem flatten_with_commas (x : Nat) (xs : List Nat) :
    ((x :: xs).map fun y => Itoa y ++ lit ",").flatten =
      (lit ",").intercalate ((x :: xs).map Itoa) ++ lit "," := by
  induction xs generalizing x with
  | nil => simp [List.intercalate]
  | cons y rest ih =>
    have h := ih y
    simp only [List.map_cons, List.flatten_cons] at h ⊢
    rw [h]
    simp [List.intercalate]

/-- For a byte sequence that is not empty `printBuffer` gives the text of the JSON array
of its values. -/
theorem printBuffer_of_ne_nil (b : List Nat) (h : b ≠ []) : printBuffer b = jsonArrayText b := by
  cases b with
  | nil => exact absurd rfl h
  | cons x xs =>
    have hcomma : lit "," = [44] := rfl
    simp only [printBuffer, jsonArrayText]
    rw [foldl_printBuffer, flatten_with_commas, hcomma, ← List.append_assoc,
      List.length_append, List.length_singleton, Nat.add_sub_cancel, List.take_left' rfl]

/-! ## The transfer command -/

theorem foldl_digits_ge (s : GoString) (n : Nat) :
    n ≤ s.foldl (fun n c => 10 * n + (c - 48)) n := by
  induction s generalizing n with
  | nil => exact Nat.le_refl _
  | cons c rest ih =>
    have h := ih (10 * n + (c - 48))
    simp only [List.foldl_cons]
    omega

theorem ParseUintFrom_digits (s : GoString) (n : Nat) (hn : n < 2 ^ 64)
    (hd : ∀ c ∈ s, 48 ≤ c ∧ c ≤ 57) :
    (s.foldl (fun n c => 10 * n + (c - 48)) n < 2 ^ 64 →
      ParseUintFrom s n = (s.foldl (fun n c => 10 * n + (c - 48)) n, none)) ∧
    (2 ^ 64 ≤ s.foldl (fun n c => 10 * n + (c - 48)) n →
      ParseUintFrom s n = (2 ^ 64 - 1, some .parseRange)) := by
  induction s generalizing n with
  | nil =>
    simp only [List.foldl_nil, ParseUintFrom]
    exact ⟨fun _ => trivial, fun h => absurd h (by omega)⟩
  | cons c rest ih =>
    have hc := hd c (List.mem_cons_self _ _)
    have hrest : ∀ x ∈ rest, 48 ≤ x ∧ x ≤ 57 := fun x hx => hd x (List.mem_cons_of_mem _ hx)
    have hge := foldl_digits_ge rest (10 * n + (c - 48))
    simp only [List.foldl_cons, ParseUintFrom, if_pos hc]
    by_cases hcut : (2 ^ 64 - 1) / 10 + 1 ≤ n
    · rw [if_pos hcut]
      exact ⟨fun h => absurd h (by omega), fun _ => rfl⟩
    · rw [if_neg hcut]
      by_cases hov : 2 ^ 64 ≤ n * 10 + (c - 48)
      · have hlt : (n * 10 + (c - 48)) % 2 ^ 64 < n * 10 := by omega
        rw [if_pos hlt]
        exact ⟨fun h => absurd h (by omega), fun _ => rfl⟩
      · have hmod : (n * 10 + (c - 48)) % 2 ^ 64 = 10 * n + (c - 48) := by omega
        have hnlt : ¬ (10 * n + (c - 48) < n * 10) := by omega
        simp only [hmod, if_neg hnlt]
        exact ih (10 * n + (c - 48)) (by omega) hrest

theorem ParseUintFrom_not_digits (s : GoString) (n : Nat)
    (hd : ¬ ∀ c ∈ s, 48 ≤ c ∧ c ≤ 57) : (ParseUintFrom s n).2 ≠ none := by
  induction s generalizing n with
  | nil => simp at hd
  | cons c rest ih =>
    by_cases hc : 48 ≤ c ∧ c ≤ 57
    · have hrest : ¬ ∀ x ∈ rest, 48 ≤ x ∧ x ≤ 57 := by
        intro h
        apply hd
        intro x hx
        rcases List.mem_cons.1 hx with rfl | hx
        · exact hc
        · exact h x hx
      simp only [ParseUintFrom, if_pos hc]
      split
      · simp
      · split
        · simp
        · exact ih _ hrest
    · simp [ParseUintFrom, hc]

/-- The call `ParseUint` returns no error exactly on the decimal unsigned 64-bit
integers, and then it returns the number. -/
theorem ParseUint_spec (s : GoString) :
    ((ParseUint s).2 = none ↔ IsDecimalUint64 s) ∧
    (IsDecimalUint64 s → (ParseUint s).1 = s.foldl (fun n c => 10 * n + (c - 48)) 0) := by
  unfold ParseUint IsDecimalUint64
  by_cases hs : s = []
  · simp [hs]
  · simp only [hs, if_false, ne_eq, not_false_eq_true, true_and]
    by_cases hd : ∀ c ∈ s, 48 ≤ c ∧ c ≤ 57
    · have h := ParseUintFrom_digits s 0 (by omega) hd
      by_cases hv : s.foldl (fun n c => 10 * n + (c - 48)) 0 < 2 ^ 64
      · rw [h.1 hv]
        exact ⟨⟨fun _ => ⟨hd, hv⟩, fun _ => rfl⟩, fun _ => rfl⟩
      · rw [h.2 (by omega)]
        exact ⟨⟨fun h => by simp at h, fun h => absurd h.2 hv⟩, fun h => absurd h.2 hv⟩
    · have h := ParseUintFrom_not_digits s 0 hd
      exact ⟨⟨fun h2 => absurd h2 h, fun h2 => absurd h2.1 hd⟩, fun h2 => absurd h2.1 hd⟩


set_option maxRecDepth 100000 in
/-- C12, the code at the failing input: the current account is set, the node answers,
and the user types an address, the amount `abc`, `y` for the default gas price and `y`
to confirm. The text `abc` is no decimal number, yet the command returns after three
requests, the third being the submission that `Transfer` sends for the amount 0. With
the amount `18446744073709551616`, which is `2 ^ 64`, the submission is that of the
amount `2 ^ 64 - 1`. -/
theorem transferCoins_submits_unparsed_amount :
    ¬ IsDecimalUint64 (lit "abc") ∧
    (transferCoins exampleEnv
      (sessionOf answeringNode [lit "0xab", lit "abc", lit "y", lit "y"])).returned = true ∧
    (transferCoins exampleEnv
      (sessionOf answeringNode [lit "0xab", lit "abc", lit "y", lit "y"])).session.sent.map
        Request.url =
      [lit "http://localhost:9090/v1/nonce", lit "http://localhost:9090/v1/balance",
       lit "http://localhost:9090/v1/submittransaction"] ∧
    (transferCoins exampleEnv
      (sessionOf answeringNode [lit "0xab", lit "abc", lit "y", lit "y"])).session.sent.drop 2 =
      ((freshWallet answeringNode).Transfer constSigner (List.replicate 20 171) 3 0 1 100
        alice.PrivKey).2 ∧
    ¬ IsDecimalUint64 (lit "18446744073709551616") ∧
    (transferCoins exampleEnv
      (sessionOf answeringNode
        [lit "0xab", lit "18446744073709551616", lit "y", lit "y"])).session.sent.drop 2 =
      ((freshWallet answeringNode).Transfer constSigner (List.replicate 20 171) 3
        (2 ^ 64 - 1) 1 100 alice.PrivKey).2 ∧
    ((freshWallet answeringNode).Transfer constSigner (List.replicate 20 171) 3
        (2 ^ 64 - 1) 1 100 alice.PrivKey).2.length = 1 := by
  decide

/-! ## The text of an address -/

theorem EncodeToString_length (b : List Nat) : (EncodeToString b).length = 2 * b.length := by
  induction b with
  | nil => rfl
  | cons v rest ih => simp only [EncodeToString, List.length_cons, ih]; omega

theorem EncodeToString_lower (b : List Nat) (h : IsBytes b) :
    ∀ c ∈ EncodeToString b, (48 ≤ c ∧ c ≤ 57) ∨ (97 ≤ c ∧ c ≤ 102) := by
  induction b with
  | nil => simp [EncodeToString]
  | cons v rest ih =>
    have hv : v < 256 := h v (List.mem_cons_self _ _)
    have hrest : IsBytes rest := fun x hx => h x (List.mem_cons_of_mem _ hx)
    have h1 := hexDigit_eq (v / 16) (by omega)
    have h2 := hexDigit_eq (v % 16) (by omega)
    intro c hc
    simp only [EncodeToString, List.mem_cons] at hc
    rcases hc with rfl | rfl | hc
    · rw [h1]; split <;> omega
    · rw [h2]; split <;> omega
    · exact ih hrest c hc

/-- The requests that `Get` sends: none, or the one POST of the data to the URL. -/
theorem Get_sent (hr : HTTPRequester) (api data : GoString) (flag : Bool) :
    ∃ k, (hr.Get api data flag).2 = [(⟨hr.url ++ api, data⟩ : Request)].take k := by
  unfold HTTPRequester.Get
  simp only
  split
  · exact ⟨0, rfl⟩
  · exact ⟨1, rfl⟩
  · split
    · exact ⟨1, rfl⟩
    · split <;> exact ⟨1, rfl⟩

theorem AccountInfo_sent (m : HTTPRequester) (address : GoString) :
    ∃ k, (m.AccountInfo address).2 =
      [(⟨m.url ++ lit "/nonce", lit "\x7b \"address\": \"0x" ++ address ++ lit "\"\x7d"⟩ : Request),
       ⟨m.url ++ lit "/balance", lit "\x7b \"address\": \"0x" ++ address ++ lit "\"\x7d"⟩].take k := by
  obtain ⟨k1, h1⟩ := Get_sent m (lit "/nonce")
    (lit "\x7b \"address\": \"0x" ++ address ++ lit "\"\x7d") true
  obtain ⟨k2, h2⟩ := Get_sent m (lit "/balance")
    (lit "\x7b \"address\": \"0x" ++ address ++ lit "\"\x7d") true
  have hfirst : ∀ sent : List Request,
      sent = [(⟨m.url ++ lit "/nonce",
        lit "\x7b \"address\": \"0x" ++ address ++ lit "\"\x7d"⟩ : Request)].take k1 →
      ∃ k, sent = [(⟨m.url ++ lit "/nonce",
          lit "\x7b \"address\": \"0x" ++ address ++ lit "\"\x7d"⟩ : Request),
        ⟨m.url ++ lit "/balance",
          lit "\x7b \"address\": \"0x" ++ address ++ lit "\"\x7d"⟩].take k := by
    intro sent hs
    cases k1 with
    | zero => exact ⟨0, by simpa using hs⟩
    | succ n => exact ⟨1, by simpa using hs⟩
  unfold HTTPRequester.AccountInfo
  simp only
  cases hg1 : m.Get (lit "/nonce")
      (lit "\x7b \"address\": \"0x" ++ address ++ lit "\"\x7d") true with
  | mk run1 sent1 =>
    rw [hg1] at h1
    simp only at h1
    cases run1 with
    | panics => exact hfirst sent1 h1
    | returns res1 =>
      obtain ⟨output, err⟩ := res1
      cases err with
      | some e => exact hfirst sent1 h1
      | none =>
        simp only
        cases hv : mapIndex (output.getD []) (lit "value") with
        | none => exact hfirst sent1 h1
        | some v =>
          cases v with
          | string nonce =>
            simp only
            cases hg2 : m.Get (lit "/balance")
                (lit "\x7b \"address\": \"0x" ++ address ++ lit "\"\x7d") true with
            | mk run2 sent2 =>
              rw [hg2] at h2
              simp only at h2
              have hboth : ∃ k, sent1 ++ sent2 =
                  [(⟨m.url ++ lit "/nonce",
                    lit "\x7b \"address\": \"0x" ++ address ++ lit "\"\x7d"⟩ : Request),
                  ⟨m.url ++ lit "/balance",
                    lit "\x7b \"address\": \"0x" ++ address ++ lit "\"\x7d"⟩].take k := by
                cases k1 with
                | zero =>
                  exfalso
                  have hs1 : sent1 = [] := by simpa using h1
                  subst hs1
                  unfold HTTPRequester.Get at hg1
                  simp only at hg1
                  split at hg1
                  · simp at hg1
                  · simp at hg1
                  · split at hg1
                    · simp at hg1
                    · split at hg1 <;> simp at hg1
                | succ n =>
                  have hs1 : sent1 = [⟨m.url ++ lit "/nonce",
                      lit "\x7b \"address\": \"0x" ++ address ++ lit "\"\x7d"⟩] := by
                    simpa using h1
                  cases k2 with
                  | zero => exact ⟨1, by simp [hs1, h2]⟩
                  | succ n2 => exact ⟨2, by simp [hs1, h2]⟩
              cases run2 with
              | panics => exact hboth
              | returns res2 =>
                obtain ⟨output2, err2⟩ := res2
                cases err2 with
                | some e => exact hboth
                | none =>
                  simp only
                  cases hv2 : mapIndex (output2.getD []) (lit "value") with
                  | none => exact hboth
                  | some v2 => cases v2 <;> exact hboth
          | null => exact hfirst sent1 h1
          | bool b => exact hfirst sent1 h1
          | number t => exact hfirst sent1 h1
          | array l => exact hfirst sent1 h1
          | object l => exact hfirst sent1 h1

theorem ListTxs_sent (m : HTTPRequester) (address : GoString) :
    (m.ListTxs address).2 =
      (m.Get (lit "/accounttxs")
        (lit "\x7b \"account\": \x7b \"address\": \"" ++ address ++ lit "\"\x7d \x7d") true).2 := by
  unfold HTTPRequester.ListTxs
  simp only
  cases m.Get (lit "/accounttxs")
      (lit "\x7b \"account\": \x7b \"address\": \"" ++ address ++ lit "\"\x7d \x7d") true with
  | mk run sent =>
    cases run with
    | panics => rfl
    | returns res =>
      obtain ⟨out, err⟩ := res
      cases err with
      | some e => rfl
      | none =>
        simp only
        cases mapIndex (out.getD []) (lit "txs") with
        | none => rfl
        | some v =>
          cases v with
          | array items => simp only; cases stringsOf items <;> rfl
          | null => rfl
          | bool b => rfl
          | number t => rfl
          | string t => rfl
          | object l => rfl

theorem SetCoinbase_sent (m : HTTPRequester) (coinbase : GoString) :
    (m.SetCoinbase coinbase).2 =
      (m.Get (lit "/setawardsaddr")
        (lit "\x7b \"address\": \"" ++ coinbase ++ lit "\"\x7d") true).2 := by
  unfold HTTPRequester.SetCoinbase
  simp only
  cases m.Get (lit "/setawardsaddr")
      (lit "\x7b \"address\": \"" ++ coinbase ++ lit "\"\x7d") true with
  | mk run sent =>
    cases run with
    | panics => rfl
    | returns res =>
      obtain ⟨out, err⟩ := res
      cases err <;> rfl

theorem accountInfo_sent (env : Env) (r : Session) (acc : Account)
    (hcur : r.client.currentAccount = some acc) :
    (accountInfo env r).session.sent = r.sent ++
      (r.client.HTTPRequester.AccountInfo
        (EncodeToString (AddressBytes (env.BytesToAddress acc.PubKey)))).2 := by
  simp only [accountInfo, currentOrChosen, WalletBE.CurrentAccount, hcur, Step.bind]
  cases r.client.HTTPRequester.AccountInfo
      (EncodeToString (AddressBytes (env.BytesToAddress acc.PubKey))) with
  | mk run sent => cases run <;> rfl

theorem listTxs_sent (env : Env) (r : Session) (acc : Account)
    (hcur : r.client.currentAccount = some acc) :
    (listTxs env r).session.sent = r.sent ++
      (r.client.HTTPRequester.ListTxs (StringAddress (acc.Address env.BytesToAddress))).2 := by
  simp only [listTxs, currentOrChosen, WalletBE.CurrentAccount, hcur, Step.bind]
  cases r.client.HTTPRequester.ListTxs (StringAddress (acc.Address env.BytesToAddress)) with
  | mk run sent => cases run <;> rfl

theorem coinbase_sent (env : Env) (r : Session) (acc : Account)
    (hcur : r.client.currentAccount = some acc) :
    (coinbase env r).session.sent = r.sent ++
      (r.client.HTTPRequester.SetCoinbase
        (StringAddress (acc.Address env.BytesToAddress))).2 := by
  simp only [coinbase, currentOrChosen, WalletBE.CurrentAccount, hcur, Step.bind]
  cases r.client.HTTPRequester.SetCoinbase
      (StringAddress (acc.Address env.BytesToAddress)) with
  | mk run sent => cases run <;> rfl

/-- The requests that `Get` sends: the one POST of the data to the URL, unless the
request is rejected before it is sent. -/
theorem Get_sent_exact (hr : HTTPRequester) (api data : GoString) (flag : Bool) :
    (hr.Get api data flag).2 =
      if (hr.Client ⟨hr.url ++ api, data⟩).rejects then [] else [⟨hr.url ++ api, data⟩] := by
  unfold HTTPRequester.Get
  simp only
  cases hc : hr.Client ⟨hr.url ++ api, data⟩ with
  | rejected e => rfl
  | failed e => rfl
  | response status body =>
    simp only [Exchange.rejects]
    split
    · rfl
    · split <;> rfl

theorem Get_of_object (hr : HTTPRequester) (api data : GoString) (flag : Bool)
    (f : List (GoString × JValue))
    (h : hr.Client ⟨hr.url ++ api, data⟩ = .response 200 (.json (.object f))) :
    hr.Get api data flag = (.returns (some f, none), [⟨hr.url ++ api, data⟩]) := by
  unfold HTTPRequester.Get
  simp [h]

/-- The first request of `AccountInfo` is sent unless it is rejected. -/
theorem AccountInfo_first (m : HTTPRequester) (address : GoString)
    (h : (m.Client ⟨m.url ++ lit "/nonce",
      lit "\x7b \"address\": \"0x" ++ address ++ lit "\"\x7d"⟩).rejects = false) :
    ∃ more, (m.AccountInfo address).2 =
      (⟨m.url ++ lit "/nonce",
        lit "\x7b \"address\": \"0x" ++ address ++ lit "\"\x7d"⟩ : Request) :: more := by
  have hg := Get_sent_exact m (lit "/nonce")
    (lit "\x7b \"address\": \"0x" ++ address ++ lit "\"\x7d") true
  rw [h] at hg
  simp only [Bool.false_eq_true, if_false] at hg
  unfold HTTPRequester.AccountInfo
  simp only
  cases hg1 : m.Get (lit "/nonce")
      (lit "\x7b \"address\": \"0x" ++ address ++ lit "\"\x7d") true with
  | mk run1 sent1 =>
    rw [hg1] at hg
    simp only at hg
    subst hg
    cases run1 with
    | panics => exact ⟨[], rfl⟩
    | returns res1 =>
      obtain ⟨output, err⟩ := res1
      cases err with
      | some e => exact ⟨[], rfl⟩
      | none =>
        simp only
        cases hv : mapIndex (output.getD []) (lit "value") with
        | none => exact ⟨[], rfl⟩
        | some v =>
          cases v with
          | string nonce =>
            simp only
            cases hg2 : m.Get (lit "/balance")
                (lit "\x7b \"address\": \"0x" ++ address ++ lit "\"\x7d") true with
            | mk run2 sent2 =>
              cases run2 with
              | panics => exact ⟨sent2, rfl⟩
              | returns res2 =>
                obtain ⟨output2, err2⟩ := res2
                cases err2 with
                | some e => exact ⟨sent2, rfl⟩
                | none =>
                  simp only
                  cases hv2 : mapIndex (output2.getD []) (lit "value") with
                  | none => exact ⟨sent2, rfl⟩
                  | some v2 => cases v2 <;> exact ⟨sent2, rfl⟩
          | null => exact ⟨[], rfl⟩
          | bool b => exact ⟨[], rfl⟩
          | number t => exact ⟨[], rfl⟩
          | array l => exact ⟨[], rfl⟩
          | object l => exact ⟨[], rfl⟩

/-- When the node answers the first request of `AccountInfo` with a nonce, the second
request is sent too, unless it is rejected. -/
theorem AccountInfo_both (m : HTTPRequester) (address : GoString)
    (f : List (GoString × JValue)) (v : GoString)
    (h1 : m.Client ⟨m.url ++ lit "/nonce",
      lit "\x7b \"address\": \"0x" ++ address ++ lit "\"\x7d"⟩ =
        .response 200 (.json (.object f)))
    (hv : mapIndex f (lit "value") = some (.string v))
    (h2 : (m.Client ⟨m.url ++ lit "/balance",
      lit "\x7b \"address\": \"0x" ++ address ++ lit "\"\x7d"⟩).rejects = false) :
    (m.AccountInfo address).2 =
      [(⟨m.url ++ lit "/nonce",
          lit "\x7b \"address\": \"0x" ++ address ++ lit "\"\x7d"⟩ : Request),
        ⟨m.url ++ lit "/balance",
          lit "\x7b \"address\": \"0x" ++ address ++ lit "\"\x7d"⟩] := by
  have hg1 := Get_of_object m (lit "/nonce")
    (lit "\x7b \"address\": \"0x" ++ address ++ lit "\"\x7d") true f h1
  have hg2 := Get_sent_exact m (lit "/balance")
    (lit "\x7b \"address\": \"0x" ++ address ++ lit "\"\x7d") true
  rw [h2] at hg2
  simp only [Bool.false_eq_true, if_false] at hg2
  unfold HTTPRequester.AccountInfo
  simp only [hg1, Option.getD_some, hv]
  cases hget : m.Get (lit "/balance")
      (lit "\x7b \"address\": \"0x" ++ address ++ lit "\"\x7d") true with
  | mk run2 sent2 =>
    rw [hget] at hg2
    simp only at hg2
    subst hg2
    cases run2 with
    | panics => rfl
    | returns res2 =>
      obtain ⟨output2, err2⟩ := res2
      cases err2 with
      | some e => rfl
      | none =>
        simp only
        cases hv2 : mapIndex (output2.getD []) (lit "value") with
        | none => rfl
        | some v2 => cases v2 <;> rfl

theorem addressBody_StringAddress (addr : List Nat) :
    lit "\x7b \"address\": \"0x" ++ EncodeToString (AddressBytes addr) ++ lit "\"\x7d" =
      addressBody (StringAddress addr) := by
  have h0 : lit "\x7b \"address\": \"0x" = lit "\x7b \"address\": \"" ++ lit "0x" := by
    decide
  rw [h0]
  simp only [addressBody, StringAddress, List.append_assoc]

/-- C14: for every account whose address has 20 bytes, the text of the address for
display, `StringAddress`, is `0x` followed by 40 small hex digits, those of the bytes
of the address, and it is this same text that stands as the address in the body of
every request built from the account. `accountInfo` sends through `AccountInfo` the
`/nonce` request and, once the node has answered it with a nonce, the `/balance`
request, both with this body; `listTxs` sends the `/accounttxs` request and `coinbase`
the `/setawardsaddr` request. Each request is sent unless `http.NewRequest` rejects
it, and the commands send no other request. -/
theorem address_text_is_the_same (env : Env) (r : Session) (acc : Account)
    (hcur : r.client.currentAccount = some acc)
    (hlen : (acc.Address env.BytesToAddress).length = 20)
    (hbytes : IsBytes (acc.Address env.BytesToAddress)) :
    ∃ digits : GoString,
      StringAddress (acc.Address env.BytesToAddress) = lit "0x" ++ digits ∧
      digits.length = 40 ∧
      (∀ c ∈ digits, (48 ≤ c ∧ c ≤ 57) ∨ (97 ≤ c ∧ c ≤ 102)) ∧
      DecodeString digits = (acc.Address env.BytesToAddress, none) ∧
      (∃ k, (accountInfo env r).session.sent = r.sent ++
        [(⟨r.client.HTTPRequester.url ++ lit "/nonce",
            addressBody (StringAddress (acc.Address env.BytesToAddress))⟩ : Request),
          ⟨r.client.HTTPRequester.url ++ lit "/balance",
            addressBody (StringAddress (acc.Address env.BytesToAddress))⟩].take k) ∧
      ((r.client.HTTPRequester.Client ⟨r.client.HTTPRequester.url ++ lit "/nonce",
          addressBody (StringAddress (acc.Address env.BytesToAddress))⟩).rejects = false →
        ∃ more, (accountInfo env r).session.sent = r.sent ++
          (⟨r.client.HTTPRequester.url ++ lit "/nonce",
            addressBody (StringAddress (acc.Address env.BytesToAddress))⟩ : Request) :: more) ∧
      (∀ (f : List (GoString × JValue)) (v : GoString),
        r.client.HTTPRequester.Client ⟨r.client.HTTPRequester.url ++ lit "/nonce",
          addressBody (StringAddress (acc.Address env.BytesToAddress))⟩ =
            .response 200 (.json (.object f)) →
        mapIndex f (lit "value") = some (.string v) →
        (r.client.HTTPRequester.Client ⟨r.client.HTTPRequester.url ++ lit "/balance",
          addressBody (StringAddress (acc.Address env.BytesToAddress))⟩).rejects = false →
        (accountInfo env r).session.sent = r.sent ++
          [(⟨r.client.HTTPRequester.url ++ lit "/nonce",
              addressBody (StringAddress (acc.Address env.BytesToAddress))⟩ : Request),
            ⟨r.client.HTTPRequester.url ++ lit "/balance",
              addressBody (StringAddress (acc.Address env.BytesToAddress))⟩]) ∧
      (listTxs env r).session.sent = r.sent ++
        (if (r.client.HTTPRequester.Client ⟨r.client.HTTPRequester.url ++ lit "/accounttxs",
            accountAddressBody (StringAddress (acc.Address env.BytesToAddress))⟩).rejects
          then []
          else [⟨r.client.HTTPRequester.url ++ lit "/accounttxs",
            accountAddressBody (StringAddress (acc.Address env.BytesToAddress))⟩]) ∧
      (coinbase env r).session.sent = r.sent ++
        (if (r.client.HTTPRequester.Client ⟨r.client.HTTPRequester.url ++ lit "/setawardsaddr",
            addressBody (StringAddress (acc.Address env.BytesToAddress))⟩).rejects
          then []
          else [⟨r.client.HTTPRequester.url ++ lit "/setawardsaddr",
            addressBody (StringAddress (acc.Address env.BytesToAddress))⟩]) := by
  have hb := addressBody_StringAddress (env.BytesToAddress acc.PubKey)
  have haddr : acc.Address env.BytesToAddress = env.BytesToAddress acc.PubKey := rfl
  refine ⟨EncodeToString (acc.Address env.BytesToAddress), rfl, ?_,
    EncodeToString_lower _ hbytes, DecodeString_EncodeToString _ hbytes, ?_, ?_, ?_, ?_, ?_⟩
  · rw [EncodeToString_length, hlen]
  · obtain ⟨k, hk⟩ := AccountInfo_sent r.client.HTTPRequester
      (EncodeToString (AddressBytes (env.BytesToAddress acc.PubKey)))
    refine ⟨k, ?_⟩
    rw [accountInfo_sent env r acc hcur, hk, hb, haddr]
  · intro hacc
    rw [haddr, ← hb] at hacc
    obtain ⟨more, hm⟩ := AccountInfo_first r.client.HTTPRequester _ hacc
    exact ⟨more, by rw [accountInfo_sent env r acc hcur, hm, hb, haddr]⟩
  · intro f v h1 hv h2
    rw [haddr, ← hb] at h1 h2
    rw [accountInfo_sent env r acc hcur,
      AccountInfo_both r.client.HTTPRequester _ f v h1 hv h2, hb, haddr]
  · rw [listTxs_sent env r acc hcur, ListTxs_sent, Get_sent_exact]
    rfl
  · rw [coinbase_sent env r acc hcur, SetCoinbase_sent, Get_sent_exact]
    rfl

theorem address_text_is_the_same_witness :
    (sessionOf answeringNode []).client.currentAccount = some alice ∧
    (alice.Address exampleEnv.BytesToAddress).length = 20 ∧
    IsBytes (alice.Address exampleEnv.BytesToAddress) ∧
    StringAddress (alice.Address exampleEnv.BytesToAddress) =
      lit "0x0505050505050505050505050505050505050505" ∧
    (accountInfo exampleEnv (sessionOf answeringNode [])).session.sent =
      [⟨lit "http://localhost:9090/v1/nonce",
          lit "\x7b \"address\": \"0x0505050505050505050505050505050505050505\"\x7d"⟩,
        ⟨lit "http://localhost:9090/v1/balance",
          lit "\x7b \"address\": \"0x0505050505050505050505050505050505050505\"\x7d"⟩] ∧
    (listTxs exampleEnv (sessionOf answeringNode [])).session.sent =
      [⟨lit "http://localhost:9090/v1/accounttxs",
          lit ("\x7b \"account\": \x7b \"address\": " ++
            "\"0x0505050505050505050505050505050505050505\"\x7d \x7d")⟩] ∧
    (coinbase exampleEnv (sessionOf answeringNode [])).session.sent =
      [⟨lit "http://localhost:9090/v1/setawardsaddr",
          lit "\x7b \"address\": \"0x0505050505050505050505050505050505050505\"\x7d"⟩] := by
  have hcur : (sessionOf answeringNode []).client.currentAccount = some alice := rfl
  have hlen : (alice.Address exampleEnv.BytesToAddress).length = 20 := by decide
  have hbytes : IsBytes (alice.Address exampleEnv.BytesToAddress) := by decide
  obtain ⟨digits, htext, -, -, hdec, -, -, hinfo, htxs, hcb⟩ :=
    address_text_is_the_same exampleEnv (sessionOf answeringNode []) alice hcur hlen hbytes
  have hstr : StringAddress (alice.Address exampleEnv.BytesToAddress) =
      lit "0x0505050505050505050505050505050505050505" := by decide
  have hinfo2 := hinfo [(lit "value", .string (lit "3")), (lit "id", .string (lit "7"))]
    (lit "3") rfl rfl rfl
  rw [hstr] at hinfo2 htxs hcb
  refine ⟨hcur, hlen, hbytes, hstr, ?_, ?_, ?_⟩
  · rw [hinfo2]; decide
  · rw [htxs]; decide
  · rw [hcb]; decide

end WalletCli
